import Mathlib

/-!
Verification of the synchronization / preservation / propagation engine of the
All-in-One dashboard scripts (Google Apps Script, HubSpot CRM).

The JavaScript source is embedded shallowly:

* spreadsheet cell values are `String`s; a sheet is its header row plus the
  grids of data values, backgrounds, font colors (and font weights where the
  source reads them);
* a HubSpot deal is its id, owner name and a total property map
  `String → String` (HubSpot's missing/null properties collapse to `""`,
  matching the pervasive `properties[p] || ''` in the source);
* JavaScript `Map` / plain-object dictionaries become association lists with
  insert-or-shadow (`aset`) and first-match lookup (`aget?`): the value seen
  for a key is the one most recently set, exactly as in a JS `Map`;
* date/number normalization helpers that call into JS `Date` / `parseFloat`
  (`formatDate`, `extractDateProperty`, `extractNumericProperty`) are
  abstracted as function parameters: every theorem below holds for every
  choice of those normalizers;
* fallible spreadsheet writes (`Range.setBackgrounds` with a wrong-width
  array throws in Apps Script) return `Except String`.
-/

namespace JsModel

/-- JavaScript `Array.prototype.indexOf` on strings, as an optional index
(`none` plays the role of `-1`). -/
def jsIndexOf (l : List String) (x : String) : Option Nat :=
  l.findIdx? (fun y => y = x)

/-- Association list used to model a JS `Map` (or a plain object used as a
dictionary). Only lookups matter to the engine, so `set` prepends and `get`
takes the first (= most recent) binding. -/
abbrev AList (α : Type) := List (String × α)

/-- `map.set key value` of a JS `Map`. -/
def aset {α : Type} (m : AList α) (k : String) (v : α) : AList α :=
  (k, v) :: m

/-- `map.get key` of a JS `Map` (`undefined` is `none`). -/
def aget? {α : Type} (m : AList α) (k : String) : Option α :=
  (m.find? (fun p => p.1 = k)).map (fun p => p.2)

theorem aget?_aset {α : Type} (m : AList α) (k k' : String) (v : α) :
    aget? (aset m k v) k' = if k' = k then some v else aget? m k' := by
  by_cases h : k' = k
  · subst h; simp [aget?, aset]
  · rw [if_neg h]
    simp [aget?, aset, List.find?_cons,
      show (decide (k = k') = false) from by simpa using fun hh => h hh.symm]

theorem aget?_nil {α : Type} (k : String) : aget? ([] : AList α) k = none := rfl

/-- A cell of a row, with the Apps Script convention that a read outside the
grid yields the empty value. -/
def cellD (row : List String) (i : Nat) : String := row.getD i ""

end JsModel

/-! ## HubSpot client: the pagination loop (`fetchDealsByOwner`)

`src/src/services/HubSpotClient.js`.  The loop's interaction with the remote
API is modelled against an arbitrary sequence of server responses: `server n`
is the response to the `n`-th page request the loop makes. -/

namespace HubSpot

open JsModel

/-- `HUBSPOT_API_CONFIG.MAX_RESULTS`. -/
def MAX_RESULTS : Nat := 10000

/-- `HUBSPOT_API_CONFIG.DEFAULT_BATCH_SIZE`. -/
def DEFAULT_BATCH_SIZE : Nat := 100

/-- One server response of the deals search endpoint: a result list and an
optional `paging.next.after` cursor. Deal contents are irrelevant to the
loop, so the results are a list over an arbitrary type. -/
structure Page (α : Type) where
  results : List α
  next : Option String

/-- The state of `fetchDealsByOwner`'s `do … while (after)` loop:
either still running (about to request another page) or exited. -/
inductive FetchState (α : Type) where
  | running (allDeals : List α)
  | done (allDeals : List α)
deriving Repr

/-- The accumulated `allDeals` of a loop state. -/
def FetchState.deals {α : Type} : FetchState α → List α
  | .running acc => acc
  | .done acc => acc

/-- Whether the loop has exited. -/
def FetchState.isDone {α : Type} : FetchState α → Bool
  | .running _ => false
  | .done _ => true

/-- One iteration of the loop body on response `p`:
push the page's results, take the new cursor, break once
`allDeals.length >= MAX_RESULTS`, otherwise continue while a cursor exists.
(The source's `if (response.results && response.results.length > 0)` guard
is the identity appending an empty list, so the append is unconditional.) -/
def fetchStep {α : Type} (p : Page α) : FetchState α → FetchState α
  | .done acc => .done acc
  | .running acc =>
    let acc' := acc ++ p.results
    if MAX_RESULTS ≤ acc'.length then .done acc'
    else
      match p.next with
      | none => .done acc'
      | some _ => .running acc'

/-- The loop state after `n` iterations against the response sequence
`server` (iteration `i` consumes `server i`). -/
def fetchRun {α : Type} (server : Nat → Page α) : Nat → FetchState α
  | 0 => .running []
  | n + 1 => fetchStep (server n) (fetchRun server n)

/-- A server that always answers with the same `m` copies of `a` and always
supplies a next cursor. -/
def constServer {α : Type} (m : Nat) (a : α) : Nat → Page α :=
  fun _ => { results := List.replicate m a, next := some "after" }

theorem fetchRun_constServer_running {α : Type} (m : Nat) (a : α) :
    ∀ n : Nat, n * m < MAX_RESULTS →
      fetchRun (constServer m a) n = .running (List.replicate (n * m) a) := by
  intro n
  induction n with
  | zero => intro _; simp [fetchRun]
  | succ n ih =>
    intro h
    have hn : n * m < MAX_RESULTS := by
      have : n * m ≤ (n + 1) * m := Nat.mul_le_mul_right m (Nat.le_succ n)
      omega
    rw [fetchRun, ih hn]
    unfold fetchStep
    have hlen : (List.replicate (n * m) a ++ (constServer m a n).results).length
        = (n + 1) * m := by
      simp [constServer, Nat.succ_mul]
    simp only [constServer, ← List.replicate_add]
    have hsum : n * m + m = (n + 1) * m := by ring
    rw [hsum]
    have : ¬ MAX_RESULTS ≤ (List.replicate ((n + 1) * m) a).length := by
      simp only [List.length_replicate]
      omega
    simp only [if_neg this]

theorem fetchRun_emptyServer {α : Type} (a : α) :
    ∀ n : Nat, fetchRun (constServer 0 a) n = .running [] := by
  intro n
  induction n with
  | zero => rfl
  | succ n ih =>
    rw [fetchRun, ih]
    simp [fetchStep, constServer, MAX_RESULTS]

/-- A `running` state always carries strictly fewer than `MAX_RESULTS`
records: the loop body exits as soon as the accumulator reaches the cap. -/
theorem fetchRun_running_lt_cap {α : Type} (server : Nat → Page α) :
    ∀ n acc, fetchRun server n = .running acc → acc.length < MAX_RESULTS := by
  intro n
  cases n with
  | zero =>
    intro acc h
    simp only [fetchRun] at h
    cases h
    simp [MAX_RESULTS]
  | succ n =>
    intro acc h
    rw [fetchRun] at h
    cases hprev : fetchRun server n with
    | done acc0 => rw [hprev] at h; simp [fetchStep] at h
    | running acc0 =>
      rw [hprev] at h
      unfold fetchStep at h
      by_cases hcap : MAX_RESULTS ≤ (acc0 ++ (server n).results).length
      · simp only [hcap, if_true] at h; cases h
      · simp only [hcap, if_false] at h
        cases hnext : (server n).next with
        | none => rw [hnext] at h; cases h
        | some c =>
          rw [hnext] at h
          cases h
          omega

/-- When every page is non-empty, the accumulator after `n` iterations that
are still `running` holds at least `n` records. -/
theorem fetchRun_running_ge {α : Type} (server : Nat → Page α)
    (hne : ∀ k, 1 ≤ (server k).results.length) :
    ∀ n acc, fetchRun server n = .running acc → n ≤ acc.length := by
  intro n
  induction n with
  | zero => intro acc h; simp [fetchRun] at h; omega
  | succ n ih =>
    intro acc h
    rw [fetchRun] at h
    cases hprev : fetchRun server n with
    | done acc0 => rw [hprev] at h; simp [fetchStep] at h
    | running acc0 =>
      rw [hprev] at h
      unfold fetchStep at h
      by_cases hcap : MAX_RESULTS ≤ (acc0 ++ (server n).results).length
      · simp only [hcap, if_true] at h; cases h
      · simp only [hcap, if_false] at h
        cases hnext : (server n).next with
        | none => rw [hnext] at h; cases h
        | some c =>
          rw [hnext] at h
          cases h
          have := ih acc0 hprev
          have := hne n
          simp only [List.length_append]
          omega

/-- Claim C8, counterexample. The pagination loop of `fetchDealsByOwner`
neither stays within the 10,000-record cap nor terminates on every response
sequence. First conjunct: against a server answering three records per page
with a cursor on every page, the loop exits holding 10,002 records — the cap
check runs only after a whole page was appended, so the accumulator
overshoots `MAX_RESULTS`. Second conjunct: against a server answering an
empty page with a cursor every time, the loop never exits. -/
theorem fetchDealsByOwner_claim_counterexample :
    (fetchRun (constServer 3 ()) 3334 = .done (List.replicate 10002 ()) ∧
      MAX_RESULTS < (List.replicate 10002 ()).length) ∧
    (∀ n : Nat, fetchRun (constServer 0 ()) n = .running []) := by
  refine ⟨⟨?_, by rw [List.length_replicate]; norm_num [MAX_RESULTS]⟩,
    fetchRun_emptyServer ()⟩
  have h : fetchRun (constServer 3 ()) 3333
      = .running (List.replicate (3333 * 3) ()) :=
    fetchRun_constServer_running 3 () 3333 (by norm_num [MAX_RESULTS])
  rw [show (3334 : Nat) = 3333 + 1 from rfl, fetchRun, h]
  unfold fetchStep constServer
  simp only
  rw [← List.replicate_add, show 3333 * 3 + 3 = 10002 from by norm_num]
  simp only [List.length_replicate]
  rw [if_pos (show MAX_RESULTS ≤ 10002 from by norm_num [MAX_RESULTS])]

/-- Claim C8, amended: the pagination loop follows the server cursor and
stops when the cursor is absent or the accumulated record count has reached
the cap, but the cap is checked only after appending a whole page, so (first
conjunct) any exit state holds fewer than `MAX_RESULTS + L` records when
every page carries at most `L`; and the loop terminates — within
`MAX_RESULTS` iterations — provided every response carries at least one
record (second conjunct). (An all-empty cursored response stream makes it
spin forever, per the counterexample.) -/
theorem fetchDealsByOwner_cap_and_termination {α : Type}
    (server : Nat → Page α) (L : Nat)
    (hbound : ∀ k, (server k).results.length ≤ L)
    (hne : ∀ k, 1 ≤ (server k).results.length) :
    (∀ n acc, fetchRun server n = .done acc → acc.length < MAX_RESULTS + L) ∧
    (fetchRun server MAX_RESULTS).isDone = true := by
  constructor
  · intro n
    induction n with
    | zero => intro acc h; simp [fetchRun] at h
    | succ n ih =>
      intro acc h
      rw [fetchRun] at h
      cases hprev : fetchRun server n with
      | done acc0 =>
        rw [hprev] at h
        simp only [fetchStep] at h
        cases h
        exact ih _ hprev
      | running acc0 =>
        rw [hprev] at h
        have hlt := fetchRun_running_lt_cap server n acc0 hprev
        have hpage := hbound n
        unfold fetchStep at h
        by_cases hcap : MAX_RESULTS ≤ (acc0 ++ (server n).results).length
        · simp only [hcap, if_true] at h
          cases h
          simp only [List.length_append]
          omega
        · simp only [hcap, if_false] at h
          cases hnext : (server n).next with
          | none =>
            rw [hnext] at h
            cases h
            simp only [List.length_append]
            omega
          | some c => rw [hnext] at h; cases h
  · cases hfin : fetchRun server MAX_RESULTS with
    | done acc => rfl
    | running acc =>
      have h1 := fetchRun_running_lt_cap server MAX_RESULTS acc hfin
      have h2 := fetchRun_running_ge server hne MAX_RESULTS acc hfin
      omega

/-- Witness for `fetchDealsByOwner_cap_and_termination`: the one-record-per-
page server satisfies both hypotheses with `L = 1`. -/
theorem fetchDealsByOwner_cap_and_termination_witness :
    (∀ k, ((constServer 1 ()) k).results.length ≤ 1) ∧
    (∀ k, 1 ≤ ((constServer 1 ()) k).results.length) ∧
    ((∀ n acc, fetchRun (constServer 1 ()) n = .done acc →
        acc.length < MAX_RESULTS + 1) ∧
      (fetchRun (constServer 1 ()) MAX_RESULTS).isDone = true) :=
  ⟨fun k => by simp [constServer], fun k => by simp [constServer],
    fetchDealsByOwner_cap_and_termination (constServer 1 ()) 1
      (fun k => by simp [constServer]) (fun k => by simp [constServer])⟩

end HubSpot

/-! ## Pipeline Review, first revision (`src/src/components/PipelineReview.js`,
functions before the revision separator): `capturePreservedData`,
`buildPipelineDataArray(deals, preservedMap)`, `updatePipelineReview`.

Only cell values matter to the idempotence claim; the capture also keeps the
color rows it reads, as the source does. -/

namespace Pipeline

open JsModel

/-- A HubSpot deal as the components consume it: `props` is total with `""`
for missing properties (`properties[p] || ''`). -/
structure Deal where
  id : String
  ownerName : String := ""
  props : String → String

namespace V1

/-- One entry of `PIPELINE_FIELDS`. -/
structure Field where
  property : String
  header : String
  ftype : String

/-- `PIPELINE_FIELDS` (13 HubSpot-backed columns, Deal ID first). -/
def PIPELINE_FIELDS : List Field := [
  ⟨"dealId", "Deal ID", "text"⟩,
  ⟨"dealname", "Deal Name", "text"⟩,
  ⟨"dealstage", "Stage", "text"⟩,
  ⟨"notes_last_updated", "Last Activity", "date"⟩,
  ⟨"notes_next_activity_date", "Next Activity", "date"⟩,
  ⟨"why_not_purchase_today_", "Why Not Purchase Today", "text"⟩,
  ⟨"call_quality_score", "Call Quality Score", "number"⟩,
  ⟨"s_discovery_a_questioning_technique__details", "Questioning", "number"⟩,
  ⟨"s_building_value_a_tailoring_features_and_benefits__details", "Building Value", "number"⟩,
  ⟨"s_funding_options__a_identifying_funding_needs__details", "Funding Options", "number"⟩,
  ⟨"s_addressing_objections_a_identifying_and_addressing_objections_and_obstacles__details", "Addressing Objections", "number"⟩,
  ⟨"s_closing_the_deal__a_assuming_the_sale__details", "Closing the Deal", "number"⟩,
  ⟨"s_closing_the_deal__a_ask_for_referral__details", "Ask for Referral", "number"⟩]

/-- The header row: `PIPELINE_FIELDS` headers followed by `MANUAL_FIELDS`
(the single editable `Notes` column). -/
def pipelineHeaders : List String :=
  PIPELINE_FIELDS.map (fun f => f.header) ++ ["Notes"]

/-- The Pipeline Review sheet: header row, data rows (sheet rows 2..) and
the data rows' background / font-color grids. -/
structure Sheet where
  header : List String
  data : List (List String)
  bg : List (List String)
  fc : List (List String)

/-- One entry of the preserved map (notes plus the row's color arrays). -/
structure Preserved where
  notes : String
  backgrounds : List String
  fontColors : List String

/-- The `data.forEach` of `capturePreservedData`: key on column A (Deal ID),
skip rows without one, keep the Notes cell (column index
`PIPELINE_FIELDS.length`) and the row's colors. -/
def captureRows (bg fc : List (List String)) :
    List (List String) → Nat → AList Preserved → AList Preserved
  | [], _, m => m
  | row :: rest, i, m =>
    let dealId := cellD row 0
    let m' := if dealId = "" then m
      else aset m dealId
        { notes := cellD row PIPELINE_FIELDS.length,
          backgrounds := bg.getD i [], fontColors := fc.getD i [] }
    captureRows bg fc rest (i + 1) m'

/-- `capturePreservedData(sheet)`. -/
def capturePreservedData (s : Sheet) : AList Preserved :=
  captureRows s.bg s.fc s.data 0 []

/-- The per-field cell of a data row (`value = properties[p] || ''`, the Deal
ID override, date formatting through the abstracted `formatDate`). -/
def fieldValue (fmtDate : String → String) (d : Deal) (f : Field) : String :=
  let value := if f.property = "dealId" then d.id else d.props f.property
  if f.ftype = "date" ∧ value ≠ "" then fmtDate value else value

/-- `preserved.notes || ''` for a Deal ID. -/
def notesOf (m : AList Preserved) (k : String) : String :=
  ((aget? m k).map (fun p => p.notes)).getD ""

/-- One data row of `buildPipelineDataArray`: the 13 HubSpot fields then the
restored Notes cell. -/
def buildRow (fmtDate : String → String) (m : AList Preserved) (d : Deal) :
    List String :=
  PIPELINE_FIELDS.map (fieldValue fmtDate d) ++ [notesOf m d.id]

/-- `buildPipelineDataArray(deals, preservedMap)`. -/
def buildPipelineDataArray (fmtDate : String → String) (deals : List Deal)
    (m : AList Preserved) : List (List String) :=
  pipelineHeaders :: deals.map (buildRow fmtDate m)

/-- The cell values written by one `updatePipelineReview` pass (steps 1, 3
and 4: capture, build, clear-and-write; formatting only touches colors). -/
def updatePipelineReviewValues (fmtDate : String → String) (deals : List Deal)
    (s : Sheet) : List (List String) :=
  buildPipelineDataArray fmtDate deals (capturePreservedData s)

theorem buildRow_col0 (fmtDate : String → String) (m : AList Preserved)
    (d : Deal) : cellD (buildRow fmtDate m d) 0 = d.id := by
  simp [buildRow, PIPELINE_FIELDS, fieldValue, cellD]

theorem buildRow_col13 (fmtDate : String → String) (m : AList Preserved)
    (d : Deal) :
    cellD (buildRow fmtDate m d) PIPELINE_FIELDS.length = notesOf m d.id := by
  simp [buildRow, PIPELINE_FIELDS, cellD]

/-- Whatever the capture fold associates to key `k` took its notes from some
row whose Deal ID cell is `k`. -/
theorem captureRows_notes (bg fc : List (List String)) (k n : String) :
    ∀ rows i m,
      (∀ row ∈ rows, cellD row 0 = k →
        cellD row PIPELINE_FIELDS.length = n) →
      (∀ p, aget? m k = some p → p.notes = n) →
      ∀ p, aget? (captureRows bg fc rows i m) k = some p → p.notes = n := by
  intro rows
  induction rows with
  | nil => intro i m _ hm p hp; exact hm p hp
  | cons row rest ih =>
    intro i m hrows hm p hp
    rw [captureRows] at hp
    by_cases hid : cellD row 0 = ""
    · simp only [hid, if_true] at hp
      exact ih (i + 1) m (fun r hr => hrows r (List.mem_cons_of_mem _ hr)) hm p hp
    · simp only [hid, if_false] at hp
      refine ih (i + 1) _ (fun r hr => hrows r (List.mem_cons_of_mem _ hr)) ?_ p hp
      intro q hq
      rw [aget?_aset] at hq
      by_cases hk : k = cellD row 0
      · rw [if_pos hk] at hq
        cases hq
        exact hrows row (List.mem_cons_self _ _) hk.symm
      · rw [if_neg hk] at hq
        exact hm q hq

/-- If some row carries Deal ID `k`, the capture fold has an entry for it. -/
theorem captureRows_isSome (bg fc : List (List String)) (k : String) :
    ∀ rows i m,
      ((∃ row ∈ rows, cellD row 0 = k ∧ k ≠ "") ∨ (aget? m k).isSome) →
      (aget? (captureRows bg fc rows i m) k).isSome := by
  intro rows
  induction rows with
  | nil =>
    intro i m h
    rcases h with ⟨row, hrow, _⟩ | h
    · cases hrow
    · exact h
  | cons row rest ih =>
    intro i m h
    rw [captureRows]
    by_cases hid : cellD row 0 = ""
    · simp only [hid, if_true]
      refine ih (i + 1) m ?_
      rcases h with ⟨r, hr, hrk, hk⟩ | h
      · rcases List.mem_cons.mp hr with rfl | hr
        · exact absurd (hid ▸ hrk) (Ne.symm hk)
        · exact Or.inl ⟨r, hr, hrk, hk⟩
      · exact Or.inr h
    · simp only [hid, if_false]
      refine ih (i + 1) _ ?_
      rcases h with ⟨r, hr, hrk, hk⟩ | h
      · rcases List.mem_cons.mp hr with rfl | hr
        · refine Or.inr ?_
          rw [aget?_aset, if_pos hrk.symm]
          rfl
        · exact Or.inl ⟨r, hr, hrk, hk⟩
      · refine Or.inr ?_
        rw [aget?_aset]
        by_cases hk2 : k = cellD row 0
        · rw [if_pos hk2]; rfl
        · rw [if_neg hk2]; exact h

/-- The capture fold never files anything under the empty Deal ID. -/
theorem captureRows_empty_key (bg fc : List (List String)) :
    ∀ rows i m, aget? (captureRows bg fc rows i m) ""
      = aget? (m : AList Preserved) "" := by
  intro rows
  induction rows with
  | nil => intro i m; rfl
  | cons row rest ih =>
    intro i m
    rw [captureRows]
    by_cases hid : cellD row 0 = ""
    · simp only [hid, if_true]; exact ih (i + 1) m
    · simp only [hid, if_false]
      rw [ih (i + 1) _, aget?_aset, if_neg (fun h => hid h.symm)]

/-- The notes a second capture-build pass would restore for deal `d` agree
with what the first pass wrote. -/
theorem notesOf_second_capture (fmtDate : String → String) (deals : List Deal)
    (m0 : AList Preserved) (bg fc : List (List String)) (d : Deal)
    (hd : d ∈ deals) (hm0 : aget? m0 "" = none) :
    notesOf (captureRows bg fc (deals.map (buildRow fmtDate m0)) 0 [])
      d.id = notesOf m0 d.id := by
  by_cases hid : d.id = ""
  · rw [hid]
    unfold notesOf
    rw [captureRows_empty_key, hm0]
    rfl
  · have hsome := captureRows_isSome bg fc d.id
      (deals.map (buildRow fmtDate m0)) 0 []
      (Or.inl ⟨buildRow fmtDate m0 d, List.mem_map_of_mem _ hd,
        buildRow_col0 fmtDate m0 d, hid⟩)
    have hval := captureRows_notes bg fc d.id (notesOf m0 d.id)
      (deals.map (buildRow fmtDate m0)) 0 []
      (by
        intro row hrow h0
        rcases List.mem_map.mp hrow with ⟨e, he, rfl⟩
        have : e.id = d.id := by rw [← buildRow_col0 fmtDate m0 e, h0]
        rw [buildRow_col13, this])
      (by intro p hp; cases hp)
    unfold notesOf
    cases hget : aget? (captureRows bg fc (deals.map (buildRow fmtDate m0)) 0 [])
        d.id with
    | none => rw [hget] at hsome; cases hsome
    | some p =>
      simpa [notesOf] using hval p hget

/-- Claim C2. Re-running the first-revision `updatePipelineReview`
capture → merge → write pass with the same fetched deal list and no
intervening human edit yields cell-for-cell identical sheet values,
including the preserved Notes column — for every date normalizer, every
fetched deal list, every starting sheet and whatever colors the first pass
left behind. -/
theorem updatePipelineReview_idempotent (fmtDate : String → String)
    (deals : List Deal) (s : Sheet) (hdr : List String)
    (bg fc : List (List String)) :
    updatePipelineReviewValues fmtDate deals
      { header := hdr,
        data := (updatePipelineReviewValues fmtDate deals s).tail,
        bg := bg, fc := fc }
    = updatePipelineReviewValues fmtDate deals s := by
  have hnone : aget? (captureRows s.bg s.fc s.data 0 []) "" = none := by
    rw [captureRows_empty_key]
    rfl
  unfold updatePipelineReviewValues buildPipelineDataArray capturePreservedData
  simp only [List.tail_cons, List.cons.injEq, true_and]
  apply List.map_congr_left
  intro d hd
  unfold buildRow
  simp only [List.append_cancel_left_eq, List.cons.injEq, and_true]
  exact notesOf_second_capture fmtDate deals (captureRows s.bg s.fc s.data 0 [])
    bg fc d hd hnone

end V1

/-! ## Pipeline Review, current revision (`src/src/components/PipelineReview.js`,
functions after the revision separator): `getPipelineReviewHeaders`,
`buildPipelineDataArray(deals)`, `capturePreservedData`,
`restorePreservedData`, `updatePipelineReview`. -/

namespace V2

open JsModel

/-- One entry of `CORE_FIELDS` / `CALL_QUALITY_FIELDS`. -/
structure Field where
  property : String
  header : String
  hidden : Bool := false
  hyperlink : Bool := false
  colorCode : Bool := false
  enabled : Bool := true
  ftype : String := "text"

/-- `CORE_FIELDS`. -/
def CORE_FIELDS : List Field := [
  { property := "hs_object_id", header := "Deal ID", hidden := true },
  { property := "dealname", header := "Deal Name", hyperlink := true },
  { property := "dealstage", header := "Stage" },
  { property := "notes_last_updated", header := "Last Activity", ftype := "date" },
  { property := "notes_next_activity_date", header := "Next Activity", ftype := "date" },
  { property := "next_task_name", header := "Next Task Name", enabled := false },
  { property := "why_not_purchase_today_", header := "Why Not Purchase Today" }]

/-- `CALL_QUALITY_FIELDS`. -/
def CALL_QUALITY_FIELDS : List Field := [
  { property := "call_quality_score", header := "Call Quality Score", colorCode := true, ftype := "number" },
  { property := "s_discovery_a_questioning_technique__details", header := "Questioning", colorCode := true, ftype := "number" },
  { property := "s_building_value_a_recap_of_students_needs", header := "Building Value", colorCode := true, ftype := "number" },
  { property := "s_funding_options__a_identifying_funding_needs", header := "Funding Options", colorCode := true, ftype := "number" },
  { property := "s_addressing_objections_a_identifying_and_addressing_objections_and_obstacles", header := "Addressing Objections", colorCode := true, ftype := "number" },
  { property := "s_closing_the_deal__a_ask_for_referral", header := "Closing the Deal", colorCode := true, ftype := "number" },
  { property := "s_closing_the_deal__a_assuming_the_sale", header := "Ask for Referral", colorCode := true, ftype := "number" }]

/-- `MANUAL_FIELDS` (editable, preserved across refreshes). -/
def MANUAL_FIELDS : List String := ["Note 1", "Note 2"]

/-- `getPipelineReviewHeaders()`. -/
def getPipelineReviewHeaders : List String :=
  CORE_FIELDS.map (fun f => f.header)
    ++ CALL_QUALITY_FIELDS.map (fun f => f.header) ++ MANUAL_FIELDS

/-- The Pipeline Review sheet: header row, then the data rows' value,
background, font-color and font-weight grids (sheet rows 2..). -/
structure Sheet where
  header : List String
  data : List (List String)
  bg : List (List String)
  fc : List (List String)
  fw : List (List String)
deriving DecidableEq

/-- One entry of the preserved object: the two note cells and the row's
color/weight arrays. -/
structure Preserved where
  note1 : String
  note2 : String
  backgrounds : List String
  fontColors : List String
  fontWeights : List String
deriving DecidableEq

/-- `noteCol > 0 ? values[i][noteCol - 1] : ''` — a cell read through an
optional column index. -/
def optCell (row : List String) (c : Option Nat) : String :=
  match c with
  | some c => cellD row c
  | none => ""

/-- The capture loop of `capturePreservedData`: key on the Deal ID column,
skip rows without one, keep both note cells (empty when the column is
missing) and the row's color/weight arrays. -/
def captureRows (dCol : Nat) (n1 n2 : Option Nat) (bg fc fw : List (List String)) :
    List (List String) → Nat → AList Preserved → AList Preserved
  | [], _, m => m
  | row :: rest, i, m =>
    let dealId := cellD row dCol
    let m' := if dealId = "" then m
      else aset m dealId
        { note1 := optCell row n1,
          note2 := optCell row n2,
          backgrounds := bg.getD i [], fontColors := fc.getD i [],
          fontWeights := fw.getD i [] }
    captureRows dCol n1 n2 bg fc fw rest (i + 1) m'

/-- `capturePreservedData(sheet)`: nothing is preserved when the Deal ID
column cannot be found. -/
def capturePreservedData (s : Sheet) : AList Preserved :=
  match jsIndexOf s.header "Deal ID" with
  | none => []
  | some dCol =>
    captureRows dCol (jsIndexOf s.header "Note 1") (jsIndexOf s.header "Note 2")
      s.bg s.fc s.fw s.data 0 []

/-- One `CORE_FIELDS` cell of a data row, in the source's branch order
(hidden → Deal ID; dealname; date via the abstracted `extractDateProperty`
normalizer; disabled → blank; otherwise the raw property). -/
def coreFieldCell (dateF : String → String) (d : Deal) (f : Field) : String :=
  if f.hidden then d.id
  else if f.property = "dealname" then d.props "dealname"
  else if f.ftype = "date" then dateF (d.props f.property)
  else if f.enabled = false then ""
  else d.props f.property

/-- One data row of `buildPipelineDataArray`: core fields, call-quality
fields through the abstracted `extractNumericProperty` normalizer, then the
blank manual note cells. -/
def buildRow (dateF numF : String → String) (d : Deal) : List String :=
  CORE_FIELDS.map (coreFieldCell dateF d)
    ++ CALL_QUALITY_FIELDS.map (fun f => numF (d.props f.property))
    ++ MANUAL_FIELDS.map (fun _ => "")

/-- `buildPipelineDataArray(deals)` (the `urlMap` only feeds hyperlink
styling and is not part of the cell values). -/
def buildPipelineDataArray (dateF numF : String → String) (deals : List Deal) :
    List (List String) :=
  getPipelineReviewHeaders :: deals.map (buildRow dateF numF)

/-- `sheet.getRange(rowIndex, col + 1).setValue(v)` on a data row, guarded by
the source's `if (noteCol >= 0 && data.noteN)`. -/
def setNote (s : Sheet) (j : Nat) (c : Option Nat) (v : String) : Sheet :=
  match c with
  | none => s
  | some c =>
    if v = "" then s
    else { s with data := s.data.set j ((s.data.getD j []).set c v) }

/-- `rowRange.setBackgrounds([arr])` over a width-`width` row range: Apps
Script throws when the array width differs from the range width. -/
def setRowBg (s : Sheet) (j width : Nat) (arr : List String) :
    Except String Sheet :=
  if arr.length = width then .ok { s with bg := s.bg.set j arr }
  else .error "setBackgrounds: wrong column count"

/-- `rowRange.setFontColors([arr])`, same width contract. -/
def setRowFc (s : Sheet) (j width : Nat) (arr : List String) :
    Except String Sheet :=
  if arr.length = width then .ok { s with fc := s.fc.set j arr }
  else .error "setFontColors: wrong column count"

/-- `rowRange.setFontWeights([arr])`, same width contract. -/
def setRowFw (s : Sheet) (j width : Nat) (arr : List String) :
    Except String Sheet :=
  if arr.length = width then .ok { s with fw := s.fw.set j arr }
  else .error "setFontWeights: wrong column count"

/-- The body of one matched iteration of the restore loop: restore the note
cells that were non-empty, then the whole row's backgrounds, font colors and
font weights (in the source's order, propagating the first failure). -/
def restoreOneRow (n1 n2 : Option Nat) (width j : Nat) (pr : Preserved)
    (s : Sheet) : Except String Sheet :=
  match setRowBg (setNote (setNote s j n1 pr.note1) j n2 pr.note2) j width
      pr.backgrounds with
  | .error e => .error e
  | .ok s3 =>
    match setRowFc s3 j width pr.fontColors with
    | .error e => .error e
    | .ok s4 => setRowFw s4 j width pr.fontWeights

/-- `dealId && preserved[dealId.toString()]` — the preserved entry of a data
row, when its Deal ID cell is non-empty. -/
def lookupPreserved (pm : AList Preserved) (dealId : String) : Option Preserved :=
  if dealId = "" then none else aget? pm dealId

theorem optCell_some (row : List String) (c : Nat) :
    optCell row (some c) = cellD row c := rfl

/-- The restore loop of `restorePreservedData` over the data rows of the
freshly built `dataArray` (`j` is the 0-based data-row index). -/
def restoreRows (pm : AList Preserved) (dCol n1 n2 : Option Nat) (width : Nat) :
    List (List String) → Nat → Sheet → Except String Sheet
  | [], _, s => .ok s
  | row :: rest, j, s =>
    match lookupPreserved pm (optCell row dCol) with
    | none => restoreRows pm dCol n1 n2 width rest (j + 1) s
    | some pr =>
      match restoreOneRow n1 n2 width j pr s with
      | .error e => .error e
      | .ok s5 => restoreRows pm dCol n1 n2 width rest (j + 1) s5

/-- `restorePreservedData(sheet, preserved, dataArray)`. -/
def restorePreservedData (s : Sheet) (pm : AList Preserved)
    (dataArray : List (List String)) : Except String Sheet :=
  if pm.isEmpty then .ok s
  else
    let headers := dataArray.headD []
    restoreRows pm (jsIndexOf headers "Deal ID") (jsIndexOf headers "Note 1")
      (jsIndexOf headers "Note 2") headers.length dataArray.tail 0 s

/-- One `updatePipelineReview` pass: capture, fetch result `deals`, build,
clear-and-write (leaving default colors and weights on the data rows —
`applyPipelineFormatting` only styles the header row and installs
conditional-format rules), then restore. An exception from a wrong-width
color array surfaces as `.error` (the source catches it and reports
`success: false`). -/
def updatePipelineReview (dateF numF : String → String) (deals : List Deal)
    (s0 : Sheet) : Except String Sheet :=
  let preserved := capturePreservedData s0
  let dataArray := buildPipelineDataArray dateF numF deals
  let width := (dataArray.headD []).length
  let s1 : Sheet :=
    { header := dataArray.headD [],
      data := dataArray.tail,
      bg := dataArray.tail.map (fun _ => List.replicate width "#ffffff"),
      fc := dataArray.tail.map (fun _ => List.replicate width "#000000"),
      fw := dataArray.tail.map (fun _ => List.replicate width "normal") }
  restorePreservedData s1 preserved dataArray

/-- The sheet state right after clear-and-write and formatting, before the
restore step: fresh values, default colors and weights on every data row. -/
def s1Built (dateF numF : String → String) (deals : List Deal) : Sheet :=
  { header := getPipelineReviewHeaders,
    data := deals.map (buildRow dateF numF),
    bg := (deals.map (buildRow dateF numF)).map
      (fun _ => List.replicate 16 "#ffffff"),
    fc := (deals.map (buildRow dateF numF)).map
      (fun _ => List.replicate 16 "#000000"),
    fw := (deals.map (buildRow dateF numF)).map
      (fun _ => List.replicate 16 "normal") }

/-- Width (and column count) of the current Pipeline Review layout. -/
theorem getPipelineReviewHeaders_length : getPipelineReviewHeaders.length = 16 := rfl

theorem getD_eq_get {α : Type} (l : List α) (j : Nat) (d : α)
    (h : j < l.length) : l.getD j d = l[j] := by
  rw [List.getD_eq_getElem?_getD, List.getElem?_eq_getElem h]
  rfl

theorem getD_mem_of_lt {α : Type} (l : List α) (j : Nat) (d : α)
    (h : j < l.length) : l.getD j d ∈ l := by
  rw [getD_eq_get l j d h]
  exact List.getElem_mem h

theorem set_getD_self {α : Type} (l : List α) (j : Nat) (d : α)
    (h : j < l.length) : l.set j (l.getD j d) = l := by
  apply List.ext_getElem?
  intro k
  rw [getD_eq_get l j d h]
  by_cases hk : j = k
  · subst hk
    rw [List.getElem?_set_eq_of_lt _ h, List.getElem?_eq_getElem h]
  · rw [List.getElem?_set_ne hk]

/-- The two note-cell writes of a matched restore iteration, as a single
row update. -/
def applyNotes (c1 c2 : Nat) (v1 v2 : String) (r : List String) : List String :=
  let r1 := if v1 = "" then r else r.set c1 v1
  if v2 = "" then r1 else r1.set c2 v2

/-- Two sheets agree (values and all color grids) on data row `k`. -/
def gridsAgreeAt (t s : Sheet) (k : Nat) : Prop :=
  t.data[k]? = s.data[k]? ∧ t.bg[k]? = s.bg[k]? ∧
    t.fc[k]? = s.fc[k]? ∧ t.fw[k]? = s.fw[k]?

theorem setNote2_spec (s : Sheet) (j c1 c2 : Nat) (v1 v2 : String)
    (hj : j < s.data.length) :
    setNote (setNote s j (some c1) v1) j (some c2) v2
      = { s with data := s.data.set j (applyNotes c1 c2 v1 v2 (s.data.getD j [])) } := by
  unfold setNote applyNotes
  by_cases h1 : v1 = ""
  · by_cases h2 : v2 = ""
    · simp only [h1, h2, ite_true]
      conv_rhs => rw [set_getD_self s.data j [] hj]
    · simp only [h1, h2, ite_true, ite_false]
  · by_cases h2 : v2 = ""
    · simp only [h1, h2, ite_true, ite_false]
    · have hgd : (s.data.set j ((s.data.getD j []).set c1 v1)).getD j []
          = (s.data.getD j []).set c1 v1 := by
        rw [List.getD_eq_getElem?_getD, List.getElem?_set_eq_of_lt _ hj]
        rfl
      simp only [h1, h2, ite_false, hgd, List.set_set]

/-- A matched restore iteration succeeds when the preserved arrays have the
range's width, and rewrites exactly row `j` of each grid. -/
theorem restoreOneRow_spec (c1 c2 width j : Nat) (pr : Preserved) (s : Sheet)
    (hj : j < s.data.length)
    (hb : pr.backgrounds.length = width) (hc : pr.fontColors.length = width)
    (hw : pr.fontWeights.length = width) :
    restoreOneRow (some c1) (some c2) width j pr s
      = .ok { header := s.header,
              data := s.data.set j
                (applyNotes c1 c2 pr.note1 pr.note2 (s.data.getD j [])),
              bg := s.bg.set j pr.backgrounds,
              fc := s.fc.set j pr.fontColors,
              fw := s.fw.set j pr.fontWeights } := by
  unfold restoreOneRow
  rw [setNote2_spec s j c1 c2 _ _ hj]
  unfold setRowBg setRowFc setRowFw
  rw [if_pos hb]
  simp only [if_pos hc, if_pos hw]

/-- Every binding the capture fold produces carries color/weight arrays of
the captured sheet's width. -/
theorem captureRows_width (dCol : Nat) (n1 n2 : Option Nat)
    (bg fc fw : List (List String)) (W : Nat)
    (hbg : ∀ r ∈ bg, r.length = W) (hfc : ∀ r ∈ fc, r.length = W)
    (hfw : ∀ r ∈ fw, r.length = W) :
    ∀ rows (i : Nat) (m : AList Preserved),
      i + rows.length ≤ bg.length → i + rows.length ≤ fc.length →
      i + rows.length ≤ fw.length →
      (∀ k p, aget? m k = some p → p.backgrounds.length = W ∧
        p.fontColors.length = W ∧ p.fontWeights.length = W) →
      ∀ k p, aget? (captureRows dCol n1 n2 bg fc fw rows i m) k = some p →
        p.backgrounds.length = W ∧ p.fontColors.length = W ∧
          p.fontWeights.length = W := by
  intro rows
  induction rows with
  | nil => intro i m _ _ _ hm k p hp; exact hm k p hp
  | cons row rest ih =>
    intro i m hbglen hfclen hfwlen hm k p hp
    rw [captureRows] at hp
    have hbglen' : i + 1 + rest.length ≤ bg.length := by
      simp only [List.length_cons] at hbglen; omega
    have hfclen' : i + 1 + rest.length ≤ fc.length := by
      simp only [List.length_cons] at hfclen; omega
    have hfwlen' : i + 1 + rest.length ≤ fw.length := by
      simp only [List.length_cons] at hfwlen; omega
    by_cases hid : cellD row dCol = ""
    · simp only [hid, if_true] at hp
      exact ih (i + 1) m hbglen' hfclen' hfwlen' hm k p hp
    · simp only [hid, if_false] at hp
      refine ih (i + 1) _ hbglen' hfclen' hfwlen' ?_ k p hp
      intro k' p' hp'
      rw [aget?_aset] at hp'
      by_cases hk : k' = cellD row dCol
      · rw [if_pos hk] at hp'
        cases hp'
        have hibg : i < bg.length := by
          simp only [List.length_cons] at hbglen; omega
        have hifc : i < fc.length := by
          simp only [List.length_cons] at hfclen; omega
        have hifw : i < fw.length := by
          simp only [List.length_cons] at hfwlen; omega
        exact ⟨hbg _ (getD_mem_of_lt bg i [] hibg),
          hfc _ (getD_mem_of_lt fc i [] hifc),
          hfw _ (getD_mem_of_lt fw i [] hifw)⟩
      · rw [if_neg hk] at hp'
        exact hm k' p' hp'

/-- The restore loop: under width-correct preserved arrays and aligned grid
lengths it succeeds; rows before `j` are untouched, and the row of each
iteration is either untouched (no preserved entry) or carries exactly the
preserved notes and color/weight arrays. -/
theorem restoreRows_spec (pm : AList Preserved) (dc c1 c2 W : Nat)
    (hpm : ∀ k p, aget? pm k = some p → p.backgrounds.length = W ∧
      p.fontColors.length = W ∧ p.fontWeights.length = W) :
    ∀ rows (j : Nat) (s : Sheet),
      s.data.length = j + rows.length → s.bg.length = j + rows.length →
      s.fc.length = j + rows.length → s.fw.length = j + rows.length →
      ∃ t, restoreRows pm (some dc) (some c1) (some c2) W rows j s = .ok t ∧
        t.header = s.header ∧
        t.data.length = s.data.length ∧ t.bg.length = s.bg.length ∧
        t.fc.length = s.fc.length ∧ t.fw.length = s.fw.length ∧
        (∀ k, k < j → gridsAgreeAt t s k) ∧
        (∀ i row, rows[i]? = some row →
          (lookupPreserved pm (cellD row dc) = none → gridsAgreeAt t s (j + i)) ∧
          (∀ pr, lookupPreserved pm (cellD row dc) = some pr →
            t.data[j + i]? = some (applyNotes c1 c2 pr.note1 pr.note2
              (s.data.getD (j + i) [])) ∧
            t.bg[j + i]? = some pr.backgrounds ∧
            t.fc[j + i]? = some pr.fontColors ∧
            t.fw[j + i]? = some pr.fontWeights)) := by
  intro rows
  induction rows with
  | nil =>
    intro j s h1 h2 h3 h4
    refine ⟨s, rfl, rfl, rfl, rfl, rfl, rfl, fun k _ => ⟨rfl, rfl, rfl, rfl⟩, ?_⟩
    intro i row hrow
    simp at hrow
  | cons row rest ih =>
    intro j s h1 h2 h3 h4
    simp only [List.length_cons] at h1 h2 h3 h4
    have hj : j < s.data.length := by omega
    rw [restoreRows]
    simp only [optCell_some]
    cases hlook : lookupPreserved pm (cellD row dc) with
    | none =>
      obtain ⟨t, ht, thdr, tl1, tl2, tl3, tl4, hbelow, hrows⟩ :=
        ih (j + 1) s (by omega) (by omega) (by omega) (by omega)
      refine ⟨t, ht, thdr, tl1, tl2, tl3, tl4, ?_, ?_⟩
      · intro k hk
        exact hbelow k (by omega)
      · intro i row' hrow'
        cases i with
        | zero =>
          simp only [List.getElem?_cons_zero, Option.some.injEq] at hrow'
          subst hrow'
          constructor
          · intro _
            simpa using hbelow j (by omega)
          · intro pr hpr
            rw [hlook] at hpr
            cases hpr
        | succ i =>
          simp only [List.getElem?_cons_succ] at hrow'
          have := hrows i row' hrow'
          rwa [show j + 1 + i = j + (i + 1) from by omega] at this
    | some pr =>
      have hpr_get : aget? pm (cellD row dc) = some pr := by
        unfold lookupPreserved at hlook
        by_cases hid : cellD row dc = ""
        · rw [if_pos hid] at hlook; cases hlook
        · rwa [if_neg hid] at hlook
      have hwidths := hpm _ pr hpr_get
      simp only [restoreOneRow_spec c1 c2 W j pr s hj hwidths.1 hwidths.2.1
        hwidths.2.2]
      set s5 : Sheet :=
        { header := s.header,
          data := s.data.set j
            (applyNotes c1 c2 pr.note1 pr.note2 (s.data.getD j [])),
          bg := s.bg.set j pr.backgrounds,
          fc := s.fc.set j pr.fontColors,
          fw := s.fw.set j pr.fontWeights } with hs5
      obtain ⟨t, ht, thdr, tl1, tl2, tl3, tl4, hbelow, hrows⟩ :=
        ih (j + 1) s5
          (by simp [hs5, List.length_set]; omega)
          (by simp [hs5, List.length_set]; omega)
          (by simp [hs5, List.length_set]; omega)
          (by simp [hs5, List.length_set]; omega)
      have hlen5 : s5.data.length = s.data.length ∧ s5.bg.length = s.bg.length ∧
          s5.fc.length = s.fc.length ∧ s5.fw.length = s.fw.length := by
        simp [hs5, List.length_set]
      refine ⟨t, ht, by rw [thdr, hs5], by omega, by omega, by omega, by omega,
        ?_, ?_⟩
      · intro k hk
        have hagree := hbelow k (by omega)
        obtain ⟨e1, e2, e3, e4⟩ := hagree
        refine ⟨?_, ?_, ?_, ?_⟩
        · rw [e1, hs5]; exact List.getElem?_set_ne (by omega)
        · rw [e2, hs5]; exact List.getElem?_set_ne (by omega)
        · rw [e3, hs5]; exact List.getElem?_set_ne (by omega)
        · rw [e4, hs5]; exact List.getElem?_set_ne (by omega)
      · intro i row' hrow'
        cases i with
        | zero =>
          simp only [List.getElem?_cons_zero, Option.some.injEq] at hrow'
          subst hrow'
          constructor
          · intro hnone
            rw [hlook] at hnone
            cases hnone
          · intro pr' hpr'
            rw [hlook] at hpr'
            cases hpr'
            obtain ⟨e1, e2, e3, e4⟩ := hbelow j (by omega)
            simp only [Nat.add_zero]
            refine ⟨?_, ?_, ?_, ?_⟩
            · rw [e1, hs5]
              exact List.getElem?_set_eq_of_lt _ hj
            · rw [e2, hs5]
              exact List.getElem?_set_eq_of_lt _ (by omega)
            · rw [e3, hs5]
              exact List.getElem?_set_eq_of_lt _ (by omega)
            · rw [e4, hs5]
              exact List.getElem?_set_eq_of_lt _ (by omega)
        | succ i =>
          simp only [List.getElem?_cons_succ] at hrow'
          have hfacts := hrows i row' hrow'
          rw [show j + 1 + i = j + (i + 1) from by omega] at hfacts
          obtain ⟨hfnone, hfsome⟩ := hfacts
          constructor
          · intro hnone
            obtain ⟨e1, e2, e3, e4⟩ := hfnone hnone
            refine ⟨?_, ?_, ?_, ?_⟩
            · rw [e1, hs5]; exact List.getElem?_set_ne (by omega)
            · rw [e2, hs5]; exact List.getElem?_set_ne (by omega)
            · rw [e3, hs5]; exact List.getElem?_set_ne (by omega)
            · rw [e4, hs5]; exact List.getElem?_set_ne (by omega)
          · intro pr' hpr'
            obtain ⟨e1, e2, e3, e4⟩ := hfsome pr' hpr'
            refine ⟨?_, e2, e3, e4⟩
            rw [e1, hs5]
            have : (s.data.set j (applyNotes c1 c2 pr.note1 pr.note2
                (s.data.getD j []))).getD (j + (i + 1)) []
                = s.data.getD (j + (i + 1)) [] := by
              rw [List.getD_eq_getElem?_getD, List.getElem?_set_ne (by omega),
                ← List.getD_eq_getElem?_getD]
            rw [this]

/-- A key the capture fold knows either came from the base map or is the
Deal ID cell of one of the captured rows. -/
theorem captureRows_keys (dCol : Nat) (n1 n2 : Option Nat)
    (bg fc fw : List (List String)) (k : String) :
    ∀ rows (i : Nat) (m : AList Preserved),
      aget? (captureRows dCol n1 n2 bg fc fw rows i m) k = aget? m k ∨
        ∃ row ∈ rows, cellD row dCol = k := by
  intro rows
  induction rows with
  | nil => intro i m; exact Or.inl rfl
  | cons row rest ih =>
    intro i m
    rw [captureRows]
    by_cases hid : cellD row dCol = ""
    · simp only [hid, if_true]
      rcases ih (i + 1) m with h | ⟨r, hr, hrk⟩
      · exact Or.inl h
      · exact Or.inr ⟨r, List.mem_cons_of_mem _ hr, hrk⟩
    · simp only [hid, if_false]
      by_cases hk : k = cellD row dCol
      · exact Or.inr ⟨row, List.mem_cons_self _ _, hk.symm⟩
      · rcases ih (i + 1) (aset m (cellD row dCol) _) with h | ⟨r, hr, hrk⟩
        · rw [aget?_aset, if_neg hk] at h
          exact Or.inl h
        · exact Or.inr ⟨r, List.mem_cons_of_mem _ hr, hrk⟩

theorem headers_dealId_idx : jsIndexOf getPipelineReviewHeaders "Deal ID" = some 0 := by
  decide

theorem headers_note1_idx : jsIndexOf getPipelineReviewHeaders "Note 1" = some 14 := by
  decide

theorem headers_note2_idx : jsIndexOf getPipelineReviewHeaders "Note 2" = some 15 := by
  decide

theorem buildRow_length (dateF numF : String → String) (d : Deal) :
    (buildRow dateF numF d).length = 16 := rfl

theorem buildRow_cell0 (dateF numF : String → String) (d : Deal) :
    cellD (buildRow dateF numF d) 0 = d.id := rfl

theorem buildRow_cell14 (dateF numF : String → String) (d : Deal) :
    cellD (buildRow dateF numF d) 14 = "" := rfl

theorem buildRow_cell15 (dateF numF : String → String) (d : Deal) :
    cellD (buildRow dateF numF d) 15 = "" := rfl

theorem cellD_set_eq (r : List String) (c : Nat) (v : String)
    (h : c < r.length) : cellD (r.set c v) c = v := by
  unfold cellD
  rw [List.getD_eq_getElem?_getD, List.getElem?_set_eq_of_lt _ h]
  rfl

theorem cellD_set_ne (r : List String) (c c' : Nat) (v : String)
    (h : c ≠ c') : cellD (r.set c v) c' = cellD r c' := by
  unfold cellD
  rw [List.getD_eq_getElem?_getD, List.getElem?_set_ne h,
    ← List.getD_eq_getElem?_getD]

/-- The note-cell updates of a matched restore hit exactly the two manual
columns of a freshly built row. -/
theorem applyNotes_cells (v1 v2 : String) (r : List String)
    (hr : r.length = 16) (hc14 : cellD r 14 = "") (hc15 : cellD r 15 = "") :
    cellD (applyNotes 14 15 v1 v2 r) 14 = v1 ∧
    cellD (applyNotes 14 15 v1 v2 r) 15 = v2 ∧
    ∀ c, c ≠ 14 → c ≠ 15 → cellD (applyNotes 14 15 v1 v2 r) c = cellD r c := by
  unfold applyNotes
  have h14 : (14 : Nat) < r.length := by omega
  have h15 : (15 : Nat) < r.length := by omega
  by_cases h1 : v1 = ""
  · by_cases h2 : v2 = ""
    · simp [h1, h2, hc14, hc15]
    · simp only [h1, h2, ite_true, ite_false]
      refine ⟨?_, cellD_set_eq r 15 v2 h15, fun c _ hc15' => cellD_set_ne _ _ _ _ ?_⟩
      · rw [cellD_set_ne _ _ _ _ (by omega), hc14]
      · omega
  · by_cases h2 : v2 = ""
    · simp only [h1, h2, ite_true, ite_false]
      refine ⟨cellD_set_eq r 14 v1 h14, ?_, fun c hc14' _ => cellD_set_ne _ _ _ _ ?_⟩
      · rw [cellD_set_ne _ _ _ _ (by omega), hc15]
      · omega
    · simp only [h1, h2, ite_false]
      have hlen : (r.set 14 v1).length = r.length := by simp
      refine ⟨?_, ?_, fun c hc14' hc15' => ?_⟩
      · rw [cellD_set_ne _ _ _ _ (by omega), cellD_set_eq r 14 v1 h14]
      · exact cellD_set_eq _ 15 v2 (by omega)
      · rw [cellD_set_ne _ _ _ _ (fun h => hc15' h.symm),
          cellD_set_ne _ _ _ _ (fun h => hc14' h.symm)]

/-- If every data row of a standard-layout sheet carries a fetched deal's id
in its Deal ID column, then an id absent from the fetch has no row and no
capturable annotation. -/
theorem orphans_dropped (t : Sheet) (deals : List Deal)
    (hthdr : t.header = getPipelineReviewHeaders)
    (hids : ∀ r ∈ t.data, ∃ d ∈ deals, cellD r 0 = d.id) :
    ∀ rid, rid ∉ deals.map (fun d => d.id) →
      (∀ r ∈ t.data, cellD r 0 ≠ rid) ∧
        aget? (capturePreservedData t) rid = none := by
  intro rid hrid
  have hrow : ∀ r ∈ t.data, cellD r 0 ≠ rid := by
    intro r hr heq
    obtain ⟨d, hd, hdid⟩ := hids r hr
    exact hrid (List.mem_map.mpr ⟨d, hd, by rw [← hdid, heq]⟩)
  refine ⟨hrow, ?_⟩
  have hcap : capturePreservedData t
      = captureRows 0 (some 14) (some 15) t.bg t.fc t.fw t.data 0 [] := by
    unfold capturePreservedData
    rw [hthdr, headers_dealId_idx, headers_note1_idx, headers_note2_idx]
  rw [hcap]
  rcases captureRows_keys 0 (some 14) (some 15) t.bg t.fc t.fw rid t.data 0 []
    with h | ⟨r, hr, hrk⟩
  · exact h
  · exact absurd hrk (hrow r hr)

/-- Claim C1. A refresh of the Pipeline Review entity store
(`updatePipelineReview`, current revision) on a well-formed sheet succeeds,
and: the refreshed rows are exactly the freshly fetched deals in order; a
Record ID present both in the pre-refresh body (i.e. with a captured
annotation) and among the fetched deals keeps its pre-refresh annotation —
both note cells (columns 14/15, the `Note 1` / `Note 2` columns of the
layout) and the row's background / font-color / font-weight arrays; and a
Record ID absent from the fresh fetch has no row afterwards and its
annotation is no longer reachable by a subsequent capture. -/
theorem updatePipelineReview_preserves_and_drops
    (dateF numF : String → String) (deals : List Deal) (s0 : Sheet)
    (hhdr : s0.header = getPipelineReviewHeaders)
    (hlbg : s0.bg.length = s0.data.length)
    (hlfc : s0.fc.length = s0.data.length)
    (hlfw : s0.fw.length = s0.data.length)
    (hwbg : ∀ r ∈ s0.bg, r.length = 16)
    (hwfc : ∀ r ∈ s0.fc, r.length = 16)
    (hwfw : ∀ r ∈ s0.fw, r.length = 16) :
    ∃ t, updatePipelineReview dateF numF deals s0 = .ok t ∧
      t.data.length = deals.length ∧
      (∀ (k : Nat) (d : Deal), deals[k]? = some d →
        ∃ r, t.data[k]? = some r ∧ cellD r 0 = d.id) ∧
      (∀ (k : Nat) (d : Deal) (p : Preserved), deals[k]? = some d → d.id ≠ "" →
        aget? (capturePreservedData s0) d.id = some p →
        ∃ r, t.data[k]? = some r ∧ cellD r 14 = p.note1 ∧
          cellD r 15 = p.note2 ∧ t.bg[k]? = some p.backgrounds ∧
          t.fc[k]? = some p.fontColors ∧ t.fw[k]? = some p.fontWeights) ∧
      getPipelineReviewHeaders[14]? = some "Note 1" ∧
      getPipelineReviewHeaders[15]? = some "Note 2" ∧
      (∀ rid, rid ∉ deals.map (fun d => d.id) →
        (∀ r ∈ t.data, cellD r 0 ≠ rid) ∧
          aget? (capturePreservedData t) rid = none) := by
  have hcap0 : capturePreservedData s0
      = captureRows 0 (some 14) (some 15) s0.bg s0.fc s0.fw s0.data 0 [] := by
    unfold capturePreservedData
    rw [hhdr, headers_dealId_idx, headers_note1_idx, headers_note2_idx]
  have hpm_width : ∀ k p, aget? (capturePreservedData s0) k = some p →
      p.backgrounds.length = 16 ∧ p.fontColors.length = 16 ∧
        p.fontWeights.length = 16 := by
    intro k p hp
    rw [hcap0] at hp
    exact captureRows_width 0 (some 14) (some 15) s0.bg s0.fc s0.fw 16
      hwbg hwfc hwfw s0.data 0 [] (by omega) (by omega) (by omega)
      (fun k p h => by cases h) k p hp
  have hupd : updatePipelineReview dateF numF deals s0
      = (if (capturePreservedData s0).isEmpty then
          .ok (s1Built dateF numF deals)
        else
          restoreRows (capturePreservedData s0) (some 0) (some 14) (some 15) 16
            (deals.map (buildRow dateF numF)) 0 (s1Built dateF numF deals)) := by
    unfold updatePipelineReview restorePreservedData s1Built
    rfl
  have hs1data : (s1Built dateF numF deals).data = deals.map (buildRow dateF numF) := rfl
  have hs1hdr : (s1Built dateF numF deals).header = getPipelineReviewHeaders := rfl
  have hrowfact : ∀ (t : Sheet),
      (∀ (k : Nat) (d : Deal), deals[k]? = some d →
        ∃ r, t.data[k]? = some r ∧ cellD r 0 = d.id) →
      t.data.length = deals.length →
      ∀ r ∈ t.data, ∃ d ∈ deals, cellD r 0 = d.id := by
    intro t hk hlen r hr
    obtain ⟨n, hn⟩ := List.mem_iff_getElem?.mp hr
    have hnlen : n < deals.length := by
      rw [← hlen]
      exact (List.getElem?_eq_some.mp hn).1
    obtain ⟨d, hd⟩ : ∃ d, deals[n]? = some d :=
      ⟨deals[n], List.getElem?_eq_getElem hnlen⟩
    obtain ⟨r', hr', hrid⟩ := hk n d hd
    rw [hn] at hr'
    cases hr'
    exact ⟨d, List.getElem?_mem hd, hrid⟩
  by_cases hempty : (capturePreservedData s0).isEmpty
  · rw [hupd, if_pos hempty]
    refine ⟨s1Built dateF numF deals, rfl, by simp [hs1data], ?_, ?_, rfl, rfl, ?_⟩
    · intro k d hd
      refine ⟨buildRow dateF numF d, ?_, buildRow_cell0 dateF numF d⟩
      rw [hs1data, List.getElem?_map, hd]
      rfl
    · intro k d p hd hdid hp
      rw [List.isEmpty_iff] at hempty
      rw [hempty] at hp
      cases hp
    · have hk : ∀ (k : Nat) (d : Deal), deals[k]? = some d →
          ∃ r, (s1Built dateF numF deals).data[k]? = some r ∧ cellD r 0 = d.id := by
        intro k d hd
        refine ⟨buildRow dateF numF d, ?_, buildRow_cell0 dateF numF d⟩
        rw [hs1data, List.getElem?_map, hd]
        rfl
      exact orphans_dropped _ deals hs1hdr
        (hrowfact _ hk (by simp [hs1data]))
  · rw [hupd, if_neg hempty]
    obtain ⟨t, ht, thdr, tl1, tl2, tl3, tl4, hbelow, hrows⟩ :=
      restoreRows_spec (capturePreservedData s0) 0 14 15 16 hpm_width
        (deals.map (buildRow dateF numF)) 0 (s1Built dateF numF deals)
        (by simp [hs1data]) (by simp [s1Built]) (by simp [s1Built])
        (by simp [s1Built])
    have htlen : t.data.length = deals.length := by
      rw [tl1, hs1data]
      simp
    have hkfact : ∀ (k : Nat) (d : Deal), deals[k]? = some d →
        ∃ r, t.data[k]? = some r ∧ cellD r 0 = d.id := by
      intro k d hd
      have hbuilt : (deals.map (buildRow dateF numF))[k]?
          = some (buildRow dateF numF d) := by
        rw [List.getElem?_map, hd]
        rfl
      obtain ⟨hnone, hsome⟩ := hrows k (buildRow dateF numF d) hbuilt
      cases hl : lookupPreserved (capturePreservedData s0)
          (cellD (buildRow dateF numF d) 0) with
      | none =>
        obtain ⟨e1, _, _, _⟩ := hnone hl
        refine ⟨buildRow dateF numF d, ?_, buildRow_cell0 dateF numF d⟩
        rw [Nat.zero_add] at e1
        rw [e1, hs1data, List.getElem?_map, hd]
        rfl
      | some pr =>
        obtain ⟨e1, _, _, _⟩ := hsome pr hl
        rw [Nat.zero_add] at e1
        have hgd : (s1Built dateF numF deals).data.getD k []
            = buildRow dateF numF d := by
          rw [List.getD_eq_getElem?_getD, hs1data, List.getElem?_map, hd]
          rfl
        rw [hgd] at e1
        refine ⟨_, e1, ?_⟩
        obtain ⟨_, _, hother⟩ := applyNotes_cells pr.note1 pr.note2
          (buildRow dateF numF d) (buildRow_length dateF numF d)
          (buildRow_cell14 dateF numF d) (buildRow_cell15 dateF numF d)
        rw [hother 0 (by omega) (by omega)]
        exact buildRow_cell0 dateF numF d
    refine ⟨t, ht, htlen, hkfact, ?_, rfl, rfl, ?_⟩
    · intro k d p hd hdid hp
      have hbuilt : (deals.map (buildRow dateF numF))[k]?
          = some (buildRow dateF numF d) := by
        rw [List.getElem?_map, hd]
        rfl
      obtain ⟨hnone, hsome⟩ := hrows k (buildRow dateF numF d) hbuilt
      have hl : lookupPreserved (capturePreservedData s0)
          (cellD (buildRow dateF numF d) 0) = some p := by
        rw [buildRow_cell0]
        unfold lookupPreserved
        rw [if_neg hdid]
        exact hp
      obtain ⟨e1, e2, e3, e4⟩ := hsome p hl
      rw [Nat.zero_add] at e1 e2 e3 e4
      have hgd : (s1Built dateF numF deals).data.getD k []
          = buildRow dateF numF d := by
        rw [List.getD_eq_getElem?_getD, hs1data, List.getElem?_map, hd]
        rfl
      rw [hgd] at e1
      obtain ⟨hc14, hc15, _⟩ := applyNotes_cells p.note1 p.note2
        (buildRow dateF numF d) (buildRow_length dateF numF d)
        (buildRow_cell14 dateF numF d) (buildRow_cell15 dateF numF d)
      exact ⟨_, e1, hc14, hc15, e2, e3, e4⟩
    · exact orphans_dropped t deals (by rw [thdr, hs1hdr])
        (hrowfact t hkfact htlen)

/-- A concrete deal for witnesses and counterexamples. -/
def wDeal : Deal := { id := "d1", props := fun _ => "" }

/-- A concrete well-formed one-row Pipeline Review sheet in which deal `d1`
carries notes and a highlighted row. -/
def wS0 : Sheet :=
  { header := getPipelineReviewHeaders,
    data := ["d1" :: (List.replicate 13 "" ++ ["note a", "note b"])],
    bg := [List.replicate 16 "#ffff00"],
    fc := [List.replicate 16 "#ff0000"],
    fw := [List.replicate 16 "bold"] }

/-- Witness for `updatePipelineReview_preserves_and_drops`: the hypotheses
hold at the concrete sheet `wS0` and deal list `[wDeal]`, and the theorem
applies there. -/
theorem updatePipelineReview_preserves_and_drops_witness :
    (wS0.header = getPipelineReviewHeaders ∧
      wS0.bg.length = wS0.data.length ∧ wS0.fc.length = wS0.data.length ∧
      wS0.fw.length = wS0.data.length ∧ (∀ r ∈ wS0.bg, r.length = 16) ∧
      (∀ r ∈ wS0.fc, r.length = 16) ∧ (∀ r ∈ wS0.fw, r.length = 16)) ∧
    (∃ t, updatePipelineReview (fun v => v) (fun v => v) [wDeal] wS0 = .ok t ∧
      t.data.length = [wDeal].length ∧
      (∀ (k : Nat) (d : Deal), [wDeal][k]? = some d →
        ∃ r, t.data[k]? = some r ∧ cellD r 0 = d.id) ∧
      (∀ (k : Nat) (d : Deal) (p : Preserved), [wDeal][k]? = some d →
        d.id ≠ "" → aget? (capturePreservedData wS0) d.id = some p →
        ∃ r, t.data[k]? = some r ∧ cellD r 14 = p.note1 ∧
          cellD r 15 = p.note2 ∧ t.bg[k]? = some p.backgrounds ∧
          t.fc[k]? = some p.fontColors ∧ t.fw[k]? = some p.fontWeights) ∧
      getPipelineReviewHeaders[14]? = some "Note 1" ∧
      getPipelineReviewHeaders[15]? = some "Note 2" ∧
      (∀ rid, rid ∉ [wDeal].map (fun d => d.id) →
        (∀ r ∈ t.data, cellD r 0 ≠ rid) ∧
          aget? (capturePreservedData t) rid = none)) :=
  ⟨⟨rfl, rfl, rfl, rfl, by decide, by decide, by decide⟩,
    updatePipelineReview_preserves_and_drops (fun v => v) (fun v => v) [wDeal]
      wS0 rfl rfl rfl rfl (by decide) (by decide) (by decide)⟩

/-- A one-row sheet still carrying the previous 14-column layout (the
first-revision headers), whose captured color arrays therefore have length
14 while the current layout has 16 columns. -/
def c6OldSheet : Sheet :=
  { header := V1.pipelineHeaders,
    data := ["d1" :: List.replicate 13 ""],
    bg := [List.replicate 14 "#ffff00"],
    fc := [List.replicate 14 "#ff0000"],
    fw := [List.replicate 14 "bold"] }

/-- Claim C6, counterexample. `restorePreservedData` re-applies captured
color arrays without padding or truncating: refreshing a sheet whose
captured arrays have length 14 (the previous layout) against the current
16-column layout makes the whole `updatePipelineReview` pass fail with a
wrong-column-count error instead of tolerating the drift. -/
theorem restorePreservedData_drift_fails :
    (Option.map (fun p => p.backgrounds.length)
      (aget? (capturePreservedData c6OldSheet) "d1") = some 14) ∧
    getPipelineReviewHeaders.length = 16 ∧
    updatePipelineReview (fun v => v) (fun v => v) [wDeal] c6OldSheet
      = .error "setBackgrounds: wrong column count" := by
  refine ⟨by decide, rfl, ?_⟩
  rfl

end V2

end Pipeline

/-! ## Director Hub (`src/src/components/DirectorHub.js`): directive
capture/restore (keyed by Deal Name), highlighting capture (keyed by Deal
ID), and the consolidated-pipeline priority sort and cap. -/

namespace DirectorHub

open JsModel Pipeline

/-- A values grid: the data rows (sheet rows 2..) of a tab. -/
abbrev Grid := List (List String)

/-- `MAX_DIRECTOR_DEALS`. -/
def MAX_DIRECTOR_DEALS : Nat := 200

/-- The consolidated-pipeline header row of
`buildConsolidatedPipelineDataArray`. -/
def consolidatedHeaders : List String :=
  ["Deal ID", "Deal Name", "Owner", "Stage", "Last Activity", "Next Activity",
   "Notes", "Why Not Purchase Today",
   "Questioning", "Trust", "Recap Needs", "Building Value",
   "Program Alignment", "Requirements", "Funding Needs", "Funding Solution",
   "Funding Commitment", "Objections", "Urgency", "Assume Sale", "Referral"]

/-- A director tab as the Director Hub reads it: header, data rows, and the
data rows' background and font-color grids. -/
structure DSheet where
  header : List String
  data : Grid
  bg : Grid
  fc : Grid
deriving DecidableEq

/-- One captured director directive (`captureDirectorDirectives`). -/
structure Directive where
  priority : String
  note : String
  background : List String
deriving DecidableEq

/-- The capture loop of `captureDirectorDirectives`: keyed by the *Deal
Name* cell, keeping rows that carry a priority or a note. -/
def captureDirectiveRows (dnCol pCol nCol : Nat) (bg : Grid) :
    Grid → Nat → AList Directive → AList Directive
  | [], _, m => m
  | row :: rest, i, m =>
    let dealName := cellD row dnCol
    let m' := if dealName ≠ "" ∧ (cellD row pCol ≠ "" ∨ cellD row nCol ≠ "") then
        aset m dealName
          { priority := cellD row pCol, note := cellD row nCol,
            background := bg.getD i [] }
      else m
    captureDirectiveRows dnCol pCol nCol bg rest (i + 1) m'

/-- `captureDirectorDirectives(sheet)`: directives are indexed by the value
of the `Deal Name` column; nothing is captured when the priority or note
column is missing. -/
def captureDirectorDirectives (s : DSheet) : AList Directive :=
  match jsIndexOf s.header "Deal Name", jsIndexOf s.header "Director Priority",
      jsIndexOf s.header "Director Note" with
  | some dnCol, some pCol, some nCol =>
    captureDirectiveRows dnCol pCol nCol s.bg s.data 0 []
  | _, _, _ => []

/-- `setValue` on one cell of a data-row grid (0-based row and column),
padding the row as the spreadsheet would. -/
def setCell (g : Grid) (j c : Nat) (v : String) : Grid :=
  g.set j ((g.getD j [] ++
    List.replicate (c + 1 - (g.getD j []).length) "").set c v)

/-- The restore loop of `restoreDirectorDirectives`: for every data row
whose *Deal Name* matches a captured directive, write the priority and note
cells back and repaint the row background. -/
def restoreDirectiveRows (pCol nCol width : Nat) (m : AList Directive) :
    List String → Nat → Grid × Grid → Grid × Grid
  | [], _, gs => gs
  | dealName :: rest, i, (gv, gb) =>
    let step :=
      if dealName = "" then (gv, gb)
      else
        match aget? m dealName with
        | none => (gv, gb)
        | some dir =>
          let gv1 := if dir.priority ≠ "" then setCell gv i pCol dir.priority
            else gv
          let gv2 := if dir.note ≠ "" then setCell gv1 i nCol dir.note else gv1
          (gv2, gb.set i (dir.background.take width))
    restoreDirectiveRows pCol nCol width m rest (i + 1) step

/-- `restoreDirectorDirectives(sheet, directives, dealIdMap)`: despite the
`dealIdMap` name, row matching reads the refreshed sheet's *Deal Name*
column. Returns the updated values and background grids. -/
def restoreDirectorDirectives (s : DSheet) (m : AList Directive) :
    Grid × Grid :=
  match jsIndexOf s.header "Deal Name", jsIndexOf s.header "Director Priority",
      jsIndexOf s.header "Director Note" with
  | some dnCol, some pCol, some nCol =>
    if m.isEmpty then (s.data, s.bg)
    else restoreDirectiveRows pCol nCol s.header.length m
      (s.data.map (fun row => cellD row dnCol)) 0 (s.data, s.bg)
  | _, _, _ => (s.data, s.bg)

/-- One captured highlighting entry (`captureDirectorHighlighting`). -/
structure Highlight where
  backgrounds : List String
  fontColors : List String
deriving DecidableEq

/-- The capture loop of `captureDirectorHighlighting`: keyed by the Deal ID
in column A, keeping each row's background and font-color arrays. -/
def captureHighlightRows (bg fc : Grid) :
    List String → Nat → AList Highlight → AList Highlight
  | [], _, m => m
  | dealId :: rest, i, m =>
    let m' := if dealId = "" then m
      else aset m dealId
        { backgrounds := bg.getD i [], fontColors := fc.getD i [] }
    captureHighlightRows bg fc rest (i + 1) m'

/-- `captureDirectorHighlighting(sheet)`. -/
def captureDirectorHighlighting (s : DSheet) : AList Highlight :=
  captureHighlightRows s.bg s.fc (s.data.map (fun row => cellD row 0)) 0 []

/-- `STAGE_MAP` (stage id → stage name). -/
def STAGE_MAP : List (String × String) := [
  ("90284257", "Create Curiosity"), ("90284258", "Needs Analysis"),
  ("90284259", "Demonstrating Value"), ("90284260", "Partnership Proposal"),
  ("90284261", "Negotiation"), ("90284262", "Partnership Confirmed")]

/-- `STAGE_MAP[stageId] || stageId`. -/
def stageName (stageId : String) : String :=
  ((STAGE_MAP.find? (fun p => p.1 = stageId)).map (fun p => p.2)).getD stageId

/-- `localeCompare`, modelled as lexicographic string comparison (the date
strings the comparator sees are plain ASCII). -/
def strCmp (x y : String) : Int :=
  if x < y then -1 else if y < x then 1 else 0

/-- `a.properties?.notes_next_activity_date || ''`. -/
def nextAct (d : Deal) : String := d.props "notes_next_activity_date"

/-- `a.properties?.notes_last_updated || ''`. -/
def lastAct (d : Deal) : String := d.props "notes_last_updated"

/-- The priority comparator of `updateDirectorConsolidatedPipeline`
(step 3.5): deals with a pending next activity first, then most recent
next activity, then most recent last activity. -/
def dealCmp (a b : Deal) : Int :=
  if nextAct a ≠ "" ∧ nextAct b = "" then -1
  else if nextAct a = "" ∧ nextAct b ≠ "" then 1
  else if nextAct a ≠ "" ∧ nextAct b ≠ "" then strCmp (nextAct b) (nextAct a)
  else strCmp (lastAct b) (lastAct a)

/-- `a` sorts before (or ties with) `b` under the comparator. -/
def dealLe (a b : Deal) : Prop := dealCmp a b ≤ 0

instance : DecidableRel dealLe := fun a b =>
  inferInstanceAs (Decidable (dealCmp a b ≤ 0))

/-- Rank 0 = has a pending next activity, rank 1 = none. -/
def dealRank (d : Deal) : Nat := if nextAct d = "" then 1 else 0

/-- The date string the comparator orders by within a rank. -/
def dealKey (d : Deal) : String :=
  if nextAct d = "" then lastAct d else nextAct d

theorem strCmp_le_iff (x y : String) : strCmp x y ≤ 0 ↔ x ≤ y := by
  unfold strCmp
  by_cases hxy : x < y
  · simp only [hxy, if_true]
    constructor
    · intro _; exact le_of_lt hxy
    · intro _; omega
  · by_cases hyx : y < x
    · simp only [hxy, hyx, if_true, if_false]
      constructor
      · intro h; omega
      · intro h; exact absurd hyx (not_lt_of_le h)
    · have hxy' : x = y := le_antisymm (not_lt.mp hyx) (not_lt.mp hxy)
      simp [hxy, hyx, hxy']

theorem dealLe_iff (a b : Deal) :
    dealLe a b ↔ dealRank a < dealRank b ∨
      (dealRank a = dealRank b ∧ dealKey b ≤ dealKey a) := by
  unfold dealLe dealCmp dealRank dealKey
  by_cases ha : nextAct a = "" <;> by_cases hb : nextAct b = "" <;>
    simp [ha, hb, strCmp_le_iff]

instance : IsTotal Deal dealLe := by
  constructor
  intro a b
  rw [dealLe_iff, dealLe_iff]
  rcases Nat.lt_trichotomy (dealRank a) (dealRank b) with h | h | h
  · exact Or.inl (Or.inl h)
  · rcases le_total (dealKey b) (dealKey a) with hk | hk
    · exact Or.inl (Or.inr ⟨h, hk⟩)
    · exact Or.inr (Or.inr ⟨h.symm, hk⟩)
  · exact Or.inr (Or.inl h)

instance : IsTrans Deal dealLe := by
  constructor
  intro a b c hab hbc
  rw [dealLe_iff] at hab hbc ⊢
  rcases hab with h1 | ⟨h1, k1⟩ <;> rcases hbc with h2 | ⟨h2, k2⟩
  · exact Or.inl (h1.trans h2)
  · exact Or.inl (h2 ▸ h1)
  · exact Or.inl (h1 ▸ h2)
  · exact Or.inr ⟨h1.trans h2, k2.trans k1⟩

/-- `allDeals.sort(comparator)` followed by
`if (allDeals.length > MAX_DIRECTOR_DEALS) allDeals.splice(MAX_DIRECTOR_DEALS)`. -/
def capDeals (allDeals : List Deal) : List Deal :=
  let sorted := List.insertionSort dealLe allDeals
  if MAX_DIRECTOR_DEALS < sorted.length then sorted.take MAX_DIRECTOR_DEALS
  else sorted

/-- One data row of `buildConsolidatedPipelineDataArray`. -/
def consolidatedRow (fmtDate : String → String) (notesMap : AList String)
    (deal : Deal) : List String :=
  [deal.id, deal.props "dealname", deal.ownerName,
   stageName (deal.props "dealstage"),
   fmtDate (deal.props "notes_last_updated"),
   fmtDate (deal.props "notes_next_activity_date"),
   (aget? notesMap deal.id).getD "",
   deal.props "why_not_purchase_today_",
   deal.props "s_discovery_a_questioning_technique",
   deal.props "s_discovery_a_empathy__rapport_building_and_active_listening",
   deal.props "s_building_value_a_recap_of_students_needs",
   deal.props "s_building_value_a_tailoring_features_and_benefits",
   deal.props "s_gaining_an_affirmation_and_program_requirements__a_gaining_affirmation",
   deal.props "s_gaining_an_affirmation_and_program_requirements__a_essential_program_requirements",
   deal.props "s_funding_options__a_identifying_funding_needs",
   deal.props "s_funding_options__a_presenting_funding_solutions",
   deal.props "s_funding_options__a_securing_financial_commitment",
   deal.props "s_addressing_objections_a_identifying_and_addressing_objections_and_obstacles",
   deal.props "s_closing_the_deal__a_creating_a_sense_of_urgency",
   deal.props "s_closing_the_deal__a_assuming_the_sale",
   deal.props "s_closing_the_deal__a_ask_for_referral"]

/-- `buildConsolidatedPipelineDataArray(allDeals, notesMap)`. -/
def buildConsolidatedPipelineDataArray (fmtDate : String → String)
    (notesMap : AList String) (deals : List Deal) : Grid :=
  consolidatedHeaders :: deals.map (consolidatedRow fmtDate notesMap)

/-- Steps 3.5–5 of `updateDirectorConsolidatedPipeline` as far as the
written values go: priority sort, cap, build. -/
def consolidatedOutput (fmtDate : String → String) (notesMap : AList String)
    (allDeals : List Deal) : Grid :=
  buildConsolidatedPipelineDataArray fmtDate notesMap (capDeals allDeals)

/-- Claim C7. When a group's combined fetched record count exceeds
`MAX_DIRECTOR_DEALS` (200), the aggregate build sorts by the priority
comparator — pending next activity first, then most recent — and truncates:
the written output is the header plus exactly 200 data rows, those rows are
the first 200 of the sorted permutation of the fetch, and every kept deal
sorts at-or-before every dropped deal under the comparator. -/
theorem consolidated_cap_and_priority (fmtDate : String → String)
    (notesMap : AList String) (allDeals : List Deal)
    (hover : MAX_DIRECTOR_DEALS < allDeals.length) :
    (consolidatedOutput fmtDate notesMap allDeals).length
      = MAX_DIRECTOR_DEALS + 1 ∧
    consolidatedOutput fmtDate notesMap allDeals
      = consolidatedHeaders ::
        (capDeals allDeals).map (consolidatedRow fmtDate notesMap) ∧
    capDeals allDeals
      = (List.insertionSort dealLe allDeals).take MAX_DIRECTOR_DEALS ∧
    (List.insertionSort dealLe allDeals).Perm allDeals ∧
    (∀ x ∈ capDeals allDeals,
      ∀ y ∈ (List.insertionSort dealLe allDeals).drop MAX_DIRECTOR_DEALS,
        dealLe x y) := by
  have hperm := List.perm_insertionSort dealLe allDeals
  have hlen : (List.insertionSort dealLe allDeals).length = allDeals.length :=
    hperm.length_eq
  have hcap : capDeals allDeals
      = (List.insertionSort dealLe allDeals).take MAX_DIRECTOR_DEALS := by
    unfold capDeals
    rw [if_pos (by omega)]
  have hsorted : (List.insertionSort dealLe allDeals).Pairwise dealLe :=
    List.sorted_insertionSort dealLe allDeals
  have hpair : ∀ x ∈ capDeals allDeals,
      ∀ y ∈ (List.insertionSort dealLe allDeals).drop MAX_DIRECTOR_DEALS,
        dealLe x y := by
    rw [hcap]
    have := (List.take_append_drop MAX_DIRECTOR_DEALS
      (List.insertionSort dealLe allDeals)) ▸ hsorted
    exact (List.pairwise_append.mp this).2.2
  refine ⟨?_, rfl, hcap, hperm, hpair⟩
  unfold consolidatedOutput buildConsolidatedPipelineDataArray
  rw [hcap]
  simp only [List.length_cons, List.length_map, List.length_take]
  omega

/-- Witness for `consolidated_cap_and_priority` at 201 copies of a concrete
deal. -/
theorem consolidated_cap_and_priority_witness :
    MAX_DIRECTOR_DEALS < (List.replicate 201 Pipeline.V2.wDeal).length ∧
    ((consolidatedOutput (fun v => v) []
        (List.replicate 201 Pipeline.V2.wDeal)).length
      = MAX_DIRECTOR_DEALS + 1 ∧
    consolidatedOutput (fun v => v) [] (List.replicate 201 Pipeline.V2.wDeal)
      = consolidatedHeaders ::
        (capDeals (List.replicate 201 Pipeline.V2.wDeal)).map
          (consolidatedRow (fun v => v) []) ∧
    capDeals (List.replicate 201 Pipeline.V2.wDeal)
      = (List.insertionSort dealLe
          (List.replicate 201 Pipeline.V2.wDeal)).take MAX_DIRECTOR_DEALS ∧
    (List.insertionSort dealLe
      (List.replicate 201 Pipeline.V2.wDeal)).Perm
        (List.replicate 201 Pipeline.V2.wDeal) ∧
    (∀ x ∈ capDeals (List.replicate 201 Pipeline.V2.wDeal),
      ∀ y ∈ (List.insertionSort dealLe
          (List.replicate 201 Pipeline.V2.wDeal)).drop MAX_DIRECTOR_DEALS,
        dealLe x y)) :=
  ⟨by rw [List.length_replicate]; norm_num [MAX_DIRECTOR_DEALS],
    consolidated_cap_and_priority (fun v => v) []
      (List.replicate 201 Pipeline.V2.wDeal)
      (by rw [List.length_replicate]; norm_num [MAX_DIRECTOR_DEALS])⟩

end DirectorHub

/-! ## Quick Sync (`src/unnamed/part_003`): `pullNotesFromMyTeam`,
`pushMyNotesToDirector`, `syncHighlightingToMyTeam`, and their
mutual-exclusion lock wrappers. -/

namespace QuickSync

open JsModel DirectorHub Pipeline

/-- `NOTES_COLUMN_INDEX` — column G (0-based index 6) of an AE Pipeline
Review sheet. -/
def NOTES_COLUMN_INDEX : Nat := 6

/-- `DIRECTOR_NOTES_COLUMN` — column H (1-based index 8) of a director
tab. -/
def DIRECTOR_NOTES_COLUMN : Nat := 8

/-- The per-sheet collection loop of `pullNotesFromMyTeam` (step 4): Deal ID
from column A, notes from column G, keeping only rows with both non-empty
(`if (dealId && notes)`). -/
def collectSheetNotes (rows : Grid) (m : AList String) : AList String :=
  rows.foldl (fun m row =>
    let dealId := cellD row 0
    let notes := cellD row NOTES_COLUMN_INDEX
    if dealId ≠ "" ∧ notes ≠ "" then aset m dealId notes else m) m

/-- Step 4 of `pullNotesFromMyTeam` over all team AE sheets. -/
def collectTeamNotes (sheets : List Grid) : AList String :=
  sheets.foldl (fun m rows => collectSheetNotes rows m) []

/-- The collection loop of `pushMyNotesToDirector` (step 3): every row with
a Deal ID contributes, even one whose notes cell is empty
(`if (dealId) myNotes.set(dealId, notes)`). -/
def collectMyNotes (rows : Grid) : AList String :=
  rows.foldl (fun m row =>
    let dealId := cellD row 0
    if dealId ≠ "" then aset m dealId (cellD row NOTES_COLUMN_INDEX) else m) []

/-- The `updates` list of the director-sheet pass (step 5): one entry per
data-row index whose Deal ID has a collected note. -/
def collectUpdates (m : AList String) : Grid → Nat → List (Nat × String)
  | [], _ => []
  | row :: rest, i =>
    let dealId := cellD row 0
    match (if dealId = "" then none else aget? m dealId) with
    | none => collectUpdates m rest (i + 1)
    | some v => (i, v) :: collectUpdates m rest (i + 1)

/-- Step 5's batch apply: one `setValue` into column H per collected
update. -/
def updateDirectorNotes (m : AList String) (dir : Grid) : Grid :=
  (collectUpdates m dir 0).foldl
    (fun g u => setCell g u.1 (DIRECTOR_NOTES_COLUMN - 1) u.2) dir

/-- The whole interactive pull (steps 4–5), as far as the director tab's
values go. -/
def pullNotesFromMyTeamCore (sheets : List Grid) (dir : Grid) : Grid :=
  updateDirectorNotes (collectTeamNotes sheets) dir

/-- Pads with `cnt - len` neutral entries — the `while (length < cnt) push`
loop — then drops from the end down to `cnt` — the `while (length > cnt)
pop` loop. -/
def fitTo (cnt : Nat) (neutral : String) (l : List String) : List String :=
  (l ++ List.replicate (cnt - l.length) neutral).take cnt

/-- The color-array adjustment of `syncHighlightingToMyTeam` (step 5): when
the captured director row is wider than the AE sheet, splice out index 2
(the Owner column of the consolidated layout) from both arrays, then pad
with neutral colors / pop down to the AE column count; all loop conditions
read the background array, the font-color array tags along. -/
def adjustHighlighting (bg fc : List String) (aeCols : Nat) :
    List String × List String :=
  let p := if aeCols < bg.length then (bg.eraseIdx 2, fc.eraseIdx 2)
    else (bg, fc)
  let push := aeCols - p.1.length
  let b1 := p.1 ++ List.replicate push "#ffffff"
  let f1 := p.2 ++ List.replicate push "#000000"
  let pop := b1.length - aeCols
  (b1.take (b1.length - pop), f1.take (f1.length - pop))

theorem adjustHighlighting_fst_length (bg fc : List String) (aeCols : Nat) :
    (adjustHighlighting bg fc aeCols).1.length = aeCols := by
  unfold adjustHighlighting
  by_cases h : aeCols < bg.length <;>
    simp [h, List.length_eraseIdx] <;> omega

theorem adjustHighlighting_snd_length (bg fc : List String) (aeCols : Nat)
    (hlen : fc.length = bg.length) :
    (adjustHighlighting bg fc aeCols).2.length = aeCols := by
  unfold adjustHighlighting
  by_cases h : aeCols < bg.length <;>
    simp [h, List.length_eraseIdx, hlen] <;> omega

/-- When the captured aggregate row is wider than the entity sheet, the
adjustment is exactly: drop slot 2, then pad-or-truncate to the entity
column count. -/
theorem adjustHighlighting_eq_of_agg (bg fc : List String) (aeCols : Nat)
    (hagg : aeCols < bg.length) (hlen : fc.length = bg.length) :
    adjustHighlighting bg fc aeCols
      = (fitTo aeCols "#ffffff" (bg.eraseIdx 2),
         fitTo aeCols "#000000" (fc.eraseIdx 2)) := by
  unfold adjustHighlighting fitTo
  rw [if_pos hagg]
  have hb : (fc.eraseIdx 2).length = (bg.eraseIdx 2).length := by
    simp [List.length_eraseIdx, hlen]
  simp only
  rw [Prod.mk.injEq]
  constructor
  · congr 1
    simp only [List.length_append, List.length_replicate]
    omega
  · rw [hb]
    congr 1
    simp only [List.length_append, List.length_replicate]
    omega

/-- An AE Pipeline Review sheet as the highlighting sync reads it: its
column count, the Deal ID column, and the current color grids. -/
structure AESheet where
  cols : Nat
  dealIds : List String
  bg : Grid
  fc : Grid
deriving DecidableEq

/-- One iteration of the `aeDealIds.forEach` of `syncHighlightingToMyTeam`
(step 5): skip blank ids, unmatched ids and out-of-range indices; otherwise
adjust the captured arrays and replace that row of both grids. (The
source's `if (!highlighting.backgrounds || ...)` guard can never fire — a
JS array is always truthy — and is dropped; the final length re-check is
kept.) -/
def applyHighlightStep (hm : AList Highlight) (aeCols : Nat) (dealId : String)
    (i : Nat) (gb gf : Grid) : Grid × Grid :=
  if dealId = "" then (gb, gf)
  else
    match aget? hm dealId with
    | none => (gb, gf)
    | some hl =>
      if i < gb.length then
        let adj := adjustHighlighting hl.backgrounds hl.fontColors aeCols
        if adj.1.length = aeCols then (gb.set i adj.1, gf.set i adj.2)
        else (gb, gf)
      else (gb, gf)

/-- The whole `aeDealIds.forEach` loop; the batch `setBackgrounds` /
`setFontColors` write makes the accumulated grids the sheet's new color
state. -/
def applyHighlightRows (hm : AList Highlight) (aeCols : Nat) :
    List String → Nat → Grid × Grid → Grid × Grid
  | [], _, gs => gs
  | dealId :: rest, i, (gb, gf) =>
    applyHighlightRows hm aeCols rest (i + 1)
      (applyHighlightStep hm aeCols dealId i gb gf)

/-- Applying the captured director highlighting to one AE sheet. -/
def syncApplyToAE (hm : AList Highlight) (ae : AESheet) : AESheet :=
  let res := applyHighlightRows hm ae.cols ae.dealIds 0 (ae.bg, ae.fc)
  { ae with bg := res.1, fc := res.2 }

theorem applyHighlightStep_skip (hm : AList Highlight) (aeCols : Nat)
    (dealId : String) (i : Nat) (gb gf : Grid)
    (h : dealId = "" ∨ aget? hm dealId = none) :
    applyHighlightStep hm aeCols dealId i gb gf = (gb, gf) := by
  unfold applyHighlightStep
  rcases h with h | h
  · rw [if_pos h]
  · by_cases hid : dealId = ""
    · rw [if_pos hid]
    · rw [if_neg hid, h]

theorem applyHighlightStep_hit (hm : AList Highlight) (aeCols : Nat)
    (dealId : String) (i : Nat) (gb gf : Grid) (hl : Highlight)
    (hne : dealId ≠ "") (hhl : aget? hm dealId = some hl)
    (hi : i < gb.length) :
    applyHighlightStep hm aeCols dealId i gb gf
      = (gb.set i (adjustHighlighting hl.backgrounds hl.fontColors aeCols).1,
         gf.set i (adjustHighlighting hl.backgrounds hl.fontColors aeCols).2) := by
  unfold applyHighlightStep
  rw [if_neg hne, hhl]
  simp [hi, adjustHighlighting_fst_length]

/-- The apply loop: rows before the current index are untouched; each
scanned row is either untouched (blank/unmatched id) or carries exactly the
adjusted captured arrays. -/
theorem applyHighlightRows_spec (hm : AList Highlight) (aeCols : Nat) :
    ∀ (ids : List String) (i : Nat) (gb gf : Grid),
      ((applyHighlightRows hm aeCols ids i (gb, gf)).1.length = gb.length) ∧
      ((applyHighlightRows hm aeCols ids i (gb, gf)).2.length = gf.length) ∧
      (∀ k, k < i →
        (applyHighlightRows hm aeCols ids i (gb, gf)).1[k]? = gb[k]? ∧
        (applyHighlightRows hm aeCols ids i (gb, gf)).2[k]? = gf[k]?) ∧
      (∀ (t : Nat) (dealId : String), ids[t]? = some dealId →
        ((dealId = "" ∨ aget? hm dealId = none) →
          (applyHighlightRows hm aeCols ids i (gb, gf)).1[i + t]? = gb[i + t]? ∧
          (applyHighlightRows hm aeCols ids i (gb, gf)).2[i + t]? = gf[i + t]?) ∧
        (∀ hl, dealId ≠ "" → aget? hm dealId = some hl → i + t < gb.length →
          (applyHighlightRows hm aeCols ids i (gb, gf)).1[i + t]?
            = some (adjustHighlighting hl.backgrounds hl.fontColors aeCols).1 ∧
          (i + t < gf.length →
            (applyHighlightRows hm aeCols ids i (gb, gf)).2[i + t]?
              = some (adjustHighlighting hl.backgrounds hl.fontColors aeCols).2))) := by
  intro ids
  induction ids with
  | nil =>
    intro i gb gf
    refine ⟨rfl, rfl, fun k _ => ⟨rfl, rfl⟩, ?_⟩
    intro t dealId ht
    simp at ht
  | cons dealId0 rest ih =>
    intro i gb gf
    rw [applyHighlightRows]
    by_cases hskip : dealId0 = "" ∨ aget? hm dealId0 = none
    · rw [applyHighlightStep_skip hm aeCols dealId0 i gb gf hskip]
      obtain ⟨l1, l2, hbelow, hrows⟩ := ih (i + 1) gb gf
      refine ⟨l1, l2, fun k hk => hbelow k (by omega), ?_⟩
      intro t dealId ht
      cases t with
      | zero =>
        simp only [List.getElem?_cons_zero, Option.some.injEq] at ht
        subst ht
        constructor
        · intro _
          simpa using hbelow i (by omega)
        · intro hl hne hhl _
          rcases hskip with h | h
          · exact absurd h hne
          · rw [hhl] at h
            cases h
      | succ t =>
        simp only [List.getElem?_cons_succ] at ht
        have := hrows t dealId ht
        rwa [show i + 1 + t = i + (t + 1) from by omega] at this
    · push_neg at hskip
      obtain ⟨hne, hsome⟩ := hskip
      cases hhl : aget? hm dealId0 with
      | none => exact absurd hhl hsome
      | some hl0 =>
        by_cases hi : i < gb.length
        · rw [applyHighlightStep_hit hm aeCols dealId0 i gb gf hl0 hne hhl hi]
          obtain ⟨l1, l2, hbelow, hrows⟩ := ih (i + 1)
            (gb.set i (adjustHighlighting hl0.backgrounds hl0.fontColors aeCols).1)
            (gf.set i (adjustHighlighting hl0.backgrounds hl0.fontColors aeCols).2)
          refine ⟨by simpa using l1, by simpa using l2, ?_, ?_⟩
          · intro k hk
            obtain ⟨e1, e2⟩ := hbelow k (by omega)
            exact ⟨by rw [e1]; exact List.getElem?_set_ne (by omega),
              by rw [e2]; exact List.getElem?_set_ne (by omega)⟩
          · intro t dealId ht
            cases t with
            | zero =>
              simp only [List.getElem?_cons_zero, Option.some.injEq] at ht
              subst ht
              constructor
              · intro hcontra
                rcases hcontra with h | h
                · exact absurd h hne
                · rw [hhl] at h; cases h
              · intro hl hne' hhl' _
                rw [hhl] at hhl'
                cases hhl'
                obtain ⟨e1, e2⟩ := hbelow i (by omega)
                simp only [Nat.add_zero]
                refine ⟨?_, fun hif => ?_⟩
                · rw [e1]
                  exact List.getElem?_set_eq_of_lt _ hi
                · rw [e2]
                  exact List.getElem?_set_eq_of_lt _ hif
            | succ t =>
              simp only [List.getElem?_cons_succ] at ht
              have hfact := hrows t dealId ht
              rw [show i + 1 + t = i + (t + 1) from by omega] at hfact
              obtain ⟨hfnone, hfsome⟩ := hfact
              constructor
              · intro hcond
                obtain ⟨e1, e2⟩ := hfnone hcond
                exact ⟨by rw [e1]; exact List.getElem?_set_ne (by omega),
                  by rw [e2]; exact List.getElem?_set_ne (by omega)⟩
              · intro hl hne' hhl' hlt
                obtain ⟨e1, e2⟩ := hfsome hl hne' hhl' (by simpa using hlt)
                exact ⟨e1, fun hif => e2 (by simpa using hif)⟩
        · have hstep : applyHighlightStep hm aeCols dealId0 i gb gf = (gb, gf) := by
            unfold applyHighlightStep
            rw [if_neg hne, hhl]
            simp [hi]
          rw [hstep]
          obtain ⟨l1, l2, hbelow, hrows⟩ := ih (i + 1) gb gf
          refine ⟨l1, l2, fun k hk => hbelow k (by omega), ?_⟩
          intro t dealId ht
          cases t with
          | zero =>
            simp only [List.getElem?_cons_zero, Option.some.injEq] at ht
            subst ht
            constructor
            · intro _
              simpa using hbelow i (by omega)
            · intro hl _ _ hlt
              exact absurd (by simpa using hlt) hi
          | succ t =>
            simp only [List.getElem?_cons_succ] at ht
            have := hrows t dealId ht
            rwa [show i + 1 + t = i + (t + 1) from by omega] at this

theorem collectUpdates_ge (m : AList String) :
    ∀ rows (i : Nat), ∀ u ∈ collectUpdates m rows i, i ≤ u.1 := by
  intro rows
  induction rows with
  | nil => intro i u hu; simp [collectUpdates] at hu
  | cons row rest ih =>
    intro i u hu
    rw [collectUpdates] at hu
    cases hx : (if cellD row 0 = "" then none else aget? m (cellD row 0)) with
    | none =>
      rw [hx] at hu
      have := ih (i + 1) u hu
      omega
    | some v =>
      rw [hx] at hu
      rcases List.mem_cons.mp hu with rfl | hu
      · exact le_refl _
      · have := ih (i + 1) u hu
        omega

theorem collectUpdates_pairwise (m : AList String) :
    ∀ rows (i : Nat),
      (collectUpdates m rows i).Pairwise (fun a b => a.1 < b.1) := by
  intro rows
  induction rows with
  | nil => intro i; simp [collectUpdates]
  | cons row rest ih =>
    intro i
    rw [collectUpdates]
    cases hx : (if cellD row 0 = "" then none else aget? m (cellD row 0)) with
    | none => exact ih (i + 1)
    | some v =>
      refine List.pairwise_cons.mpr ⟨?_, ih (i + 1)⟩
      intro u hu
      have := collectUpdates_ge m rest (i + 1) u hu
      omega

theorem collectUpdates_mem_iff (m : AList String) :
    ∀ rows (i j : Nat) (v : String),
      ((i + j, v) ∈ collectUpdates m rows i) ↔
      (∃ row, rows[j]? = some row ∧ cellD row 0 ≠ "" ∧
        aget? m (cellD row 0) = some v) := by
  intro rows
  induction rows with
  | nil =>
    intro i j v
    simp [collectUpdates]
  | cons row rest ih =>
    intro i j v
    rw [collectUpdates]
    cases hx : (if cellD row 0 = "" then none else aget? m (cellD row 0)) with
    | none =>
      cases j with
      | zero =>
        simp only [Nat.add_zero, List.getElem?_cons_zero]
        constructor
        · intro hmem
          have := collectUpdates_ge m rest (i + 1) (i, v) hmem
          omega
        · rintro ⟨row', hrow', hne, hget⟩
          cases hrow'
          by_cases hid : cellD row 0 = ""
          · exact absurd hid hne
          · rw [if_neg hid] at hx
            rw [hx] at hget
            cases hget
      | succ j =>
        rw [show i + (j + 1) = (i + 1) + j from by omega]
        simp only [List.getElem?_cons_succ]
        exact ih (i + 1) j v
    | some v0 =>
      cases j with
      | zero =>
        simp only [Nat.add_zero, List.getElem?_cons_zero]
        constructor
        · intro hmem
          rcases List.mem_cons.mp hmem with heq | hmem
          · cases heq
            refine ⟨row, rfl, ?_, ?_⟩
            · by_cases hid : cellD row 0 = ""
              · rw [if_pos hid] at hx; cases hx
              · exact hid
            · by_cases hid : cellD row 0 = ""
              · rw [if_pos hid] at hx; cases hx
              · rwa [if_neg hid] at hx
          · have := collectUpdates_ge m rest (i + 1) (i, v) hmem
            omega
        · rintro ⟨row', hrow', hne, hget⟩
          cases hrow'
          rw [if_neg hne] at hx
          rw [hx] at hget
          cases hget
          exact List.mem_cons_self _ _
      | succ j =>
        rw [show i + (j + 1) = (i + 1) + j from by omega]
        simp only [List.getElem?_cons_succ]
        constructor
        · intro hmem
          rcases List.mem_cons.mp hmem with heq | hmem
          · have : (i + 1) + j = i := by
              have := congrArg Prod.fst heq
              simpa using this
            omega
          · exact (ih (i + 1) j v).mp hmem
        · intro hx2
          exact List.mem_cons_of_mem _ ((ih (i + 1) j v).mpr hx2)

theorem setCell_length (g : Grid) (j c : Nat) (v : String) :
    (setCell g j c v).length = g.length := by
  simp [setCell]

theorem setCell_other_row (g : Grid) (j j' c : Nat) (v : String)
    (h : j ≠ j') : (setCell g j c v)[j']? = g[j']? :=
  List.getElem?_set_ne h

theorem cellD_append_blank (row : List String) (n c : Nat) :
    cellD (row ++ List.replicate n "") c = cellD row c := by
  unfold cellD
  rw [List.getD_eq_getElem?_getD, List.getD_eq_getElem?_getD,
    List.getElem?_append]
  by_cases h : c < row.length
  · rw [if_pos h]
  · rw [if_neg h, List.getElem?_eq_none (l := row) (by omega),
      List.getElem?_replicate]
    by_cases h2 : c - row.length < n
    · rw [if_pos h2]
      rfl
    · rw [if_neg h2]

theorem setCell_cellD_same_row (g : Grid) (j c c' : Nat) (v : String)
    (h : c ≠ c') :
    cellD ((setCell g j c v).getD j []) c' = cellD (g.getD j []) c' := by
  by_cases hj : j < g.length
  · unfold setCell
    rw [List.getD_eq_getElem?_getD, List.getElem?_set_eq_of_lt _ (by simpa using hj)]
    simp only [Option.getD_some]
    rw [Pipeline.V2.cellD_set_ne _ _ _ _ h, cellD_append_blank]
  · unfold setCell
    rw [List.set_eq_of_length_le (by omega)]

theorem setCell_cellD_eq (g : Grid) (j c : Nat) (v : String)
    (hj : j < g.length) : cellD ((setCell g j c v).getD j []) c = v := by
  unfold setCell
  rw [List.getD_eq_getElem?_getD,
    List.getElem?_set_eq_of_lt _ (by simpa using hj)]
  simp only [Option.getD_some]
  exact Pipeline.V2.cellD_set_eq _ _ _ (by
    simp only [List.length_append, List.length_replicate]
    omega)

theorem setCell_cellD_frame (g : Grid) (j0 j c c' : Nat) (v : String)
    (h : c ≠ c') :
    cellD ((setCell g j0 c v).getD j []) c' = cellD (g.getD j []) c' := by
  by_cases hj : j0 = j
  · subst hj
    exact setCell_cellD_same_row g j0 c c' v h
  · rw [List.getD_eq_getElem?_getD, setCell_other_row g j0 j c v hj,
      ← List.getD_eq_getElem?_getD]

/-- The batch apply of the collected note updates: under in-range, strictly
increasing update indices, the grid keeps its length, untouched rows and
non-target columns are unchanged, and each update lands in its row's target
column. -/
theorem foldSetCell_spec (c : Nat) :
    ∀ (updates : List (Nat × String)) (g : Grid),
      (∀ u ∈ updates, u.1 < g.length) →
      updates.Pairwise (fun a b => a.1 < b.1) →
      ((updates.foldl (fun g u => setCell g u.1 c u.2) g).length = g.length) ∧
      (∀ j : Nat, (∀ v, (j, v) ∉ updates) →
        (updates.foldl (fun g u => setCell g u.1 c u.2) g)[j]? = g[j]?) ∧
      (∀ (j c' : Nat), c' ≠ c →
        cellD ((updates.foldl (fun g u => setCell g u.1 c u.2) g).getD j []) c'
          = cellD (g.getD j []) c') ∧
      (∀ (j : Nat) (v : String), (j, v) ∈ updates →
        cellD ((updates.foldl (fun g u => setCell g u.1 c u.2) g).getD j []) c
          = v) := by
  intro updates
  induction updates with
  | nil =>
    intro g _ _
    exact ⟨rfl, fun j _ => rfl, fun j c' _ => rfl, fun j v hv => by cases hv⟩
  | cons u0 rest ih =>
    intro g hbound hpair
    obtain ⟨hhead, hpair'⟩ := List.pairwise_cons.mp hpair
    have hu0 : u0.1 < g.length := hbound u0 (List.mem_cons_self _ _)
    simp only [List.foldl_cons]
    obtain ⟨ihlen, ihframe, ihcol, iheff⟩ := ih (setCell g u0.1 c u0.2)
      (by
        intro u hu
        rw [setCell_length]
        exact hbound u (List.mem_cons_of_mem _ hu))
      hpair'
    refine ⟨by rw [ihlen, setCell_length], ?_, ?_, ?_⟩
    · intro j hj
      have hj0 : u0.1 ≠ j := by
        intro h
        exact hj u0.2 (h ▸ (List.mem_cons_self _ _))
      rw [ihframe j (fun v hv => hj v (List.mem_cons_of_mem _ hv)),
        setCell_other_row g u0.1 j c u0.2 hj0]
    · intro j c' hc
      rw [ihcol j c' hc, setCell_cellD_frame g u0.1 j c c' u0.2
        (fun h => hc h.symm)]
    · intro j v hv
      rcases List.mem_cons.mp hv with heq | hv
      · have hj1 : j = u0.1 := by rw [← heq]
        have hj2 : v = u0.2 := by rw [← heq]
        subst hj1
        subst hj2
        have hframe : (rest.foldl (fun g u => setCell g u.1 c u.2)
            (setCell g u0.1 c u0.2))[u0.1]?
            = (setCell g u0.1 c u0.2)[u0.1]? := by
          refine ihframe u0.1 (fun v' hv' => ?_)
          have h := hhead (u0.1, v') hv'
          simp at h
        rw [List.getD_eq_getElem?_getD, hframe,
          ← List.getD_eq_getElem?_getD]
        exact setCell_cellD_eq g u0.1 c u0.2 hu0
      · exact iheff j v hv

theorem collectSheetNotes_inv (rows : Grid) :
    ∀ m : AList String, (∀ k v, aget? m k = some v → k ≠ "" ∧ v ≠ "") →
      ∀ k v, aget? (collectSheetNotes rows m) k = some v →
        k ≠ "" ∧ v ≠ "" := by
  induction rows with
  | nil => intro m hm k v h; exact hm k v h
  | cons row rest ih =>
    intro m hm k v h
    rw [collectSheetNotes, List.foldl_cons] at h
    refine ih _ ?_ k v (by simpa [collectSheetNotes] using h)
    intro k' v' h'
    by_cases hc : cellD row 0 ≠ "" ∧ cellD row NOTES_COLUMN_INDEX ≠ ""
    · rw [if_pos hc, aget?_aset] at h'
      by_cases hk : k' = cellD row 0
      · rw [if_pos hk] at h'
        cases h'
        exact ⟨hk ▸ hc.1, hc.2⟩
      · rw [if_neg hk] at h'
        exact hm k' v' h'
    · rw [if_neg hc] at h'
      exact hm k' v' h'

theorem collectTeamNotes_inv (sheets : List Grid) :
    ∀ k v, aget? (collectTeamNotes sheets) k = some v → k ≠ "" ∧ v ≠ "" := by
  unfold collectTeamNotes
  suffices h : ∀ (ss : List Grid) (m : AList String),
      (∀ k v, aget? m k = some v → k ≠ "" ∧ v ≠ "") →
      ∀ k v, aget? (ss.foldl (fun m rows => collectSheetNotes rows m) m) k
        = some v → k ≠ "" ∧ v ≠ "" by
    exact h sheets [] (fun k v hv => by cases hv)
  intro ss
  induction ss with
  | nil => intro m hm k v hv; exact hm k v hv
  | cons rows rest ih =>
    intro m hm k v hv
    rw [List.foldl_cons] at hv
    exact ih _ (collectSheetNotes_inv rows m hm) k v hv

/-- The distinguishable outcomes of an interactive operation: lock-busy,
normal completion, or a caught execution failure. -/
inductive Outcome where
  | busy
  | completed
  | failed (msg : String)
deriving DecidableEq

/-- `pullNotesFromMyTeam()`: bounded-wait lock; busy → toast and return with
the director tab untouched; otherwise collect team notes and update the
director tab. -/
def pullNotesFromMyTeam (lockAcquired : Bool) (sheets : List Grid)
    (dir : Grid) : Grid × Outcome :=
  if !lockAcquired then (dir, .busy)
  else (pullNotesFromMyTeamCore sheets dir, .completed)

/-- `pushMyNotesToDirector()`: bounded-wait lock; busy → toast and return
with the director tab untouched; otherwise collect the caller's notes and
update the director tab. -/
def pushMyNotesToDirector (lockAcquired : Bool) (mySheet dir : Grid) :
    Grid × Outcome :=
  if !lockAcquired then (dir, .busy)
  else (updateDirectorNotes (collectMyNotes mySheet) dir, .completed)

/-- `syncHighlightingToMyTeam()`: bounded-wait lock; busy → toast and return
with every AE sheet untouched; otherwise capture the director tab's
highlighting and apply it to each team AE sheet. -/
def syncHighlightingToMyTeam (lockAcquired : Bool) (dir : DSheet)
    (aes : List AESheet) : List AESheet × Outcome :=
  if !lockAcquired then (aes, .busy)
  else (aes.map (syncApplyToAE (captureDirectorHighlighting dir)), .completed)

/-- Claim C5. During flags-down propagation with the lock held, an AE-sheet
row whose Deal ID matches a captured aggregate row receives exactly the
aggregate row's captured background and font-color arrays with the slot at
index 2 removed — provably the `Owner` column's index in the aggregate
layout — then padded with neutral colors or truncated to the AE column
count; data and column count are untouched. -/
theorem syncHighlightingToMyTeam_reindexes (dir : DSheet)
    (aes : List AESheet) (n : Nat) (ae : AESheet) (t : Nat)
    (dealId : String) (hl : Highlight)
    (hae : aes[n]? = some ae)
    (hid : ae.dealIds[t]? = some dealId) (hne : dealId ≠ "")
    (hhl : aget? (captureDirectorHighlighting dir) dealId = some hl)
    (hlen : hl.fontColors.length = hl.backgrounds.length)
    (hagg : ae.cols < hl.backgrounds.length)
    (htb : t < ae.bg.length) (htf : t < ae.fc.length) :
    ∃ ae', (syncHighlightingToMyTeam true dir aes).1[n]? = some ae' ∧
      ae'.cols = ae.cols ∧ ae'.dealIds = ae.dealIds ∧
      ae'.bg[t]? = some (fitTo ae.cols "#ffffff" (hl.backgrounds.eraseIdx 2)) ∧
      ae'.fc[t]? = some (fitTo ae.cols "#000000" (hl.fontColors.eraseIdx 2)) ∧
      jsIndexOf DirectorHub.consolidatedHeaders "Owner" = some 2 := by
  refine ⟨syncApplyToAE (captureDirectorHighlighting dir) ae, ?_, rfl, rfl,
    ?_, ?_, by decide⟩
  · unfold syncHighlightingToMyTeam
    simp only [Bool.not_true, if_neg (by simp : ¬ (false = true))]
    rw [List.getElem?_map, hae]
    rfl
  · obtain ⟨_, _, _, hrows⟩ := applyHighlightRows_spec
      (captureDirectorHighlighting dir) ae.cols ae.dealIds 0 ae.bg ae.fc
    obtain ⟨_, hsome⟩ := hrows t dealId hid
    obtain ⟨e1, _⟩ := hsome hl hne hhl (by simpa using htb)
    have e1' : (applyHighlightRows (captureDirectorHighlighting dir) ae.cols
        ae.dealIds 0 (ae.bg, ae.fc)).1[t]?
        = some (adjustHighlighting hl.backgrounds hl.fontColors ae.cols).1 := by
      simpa using e1
    show (applyHighlightRows (captureDirectorHighlighting dir) ae.cols
        ae.dealIds 0 (ae.bg, ae.fc)).1[t]? = _
    rw [e1', adjustHighlighting_eq_of_agg hl.backgrounds hl.fontColors
      ae.cols hagg hlen]
  · obtain ⟨_, _, _, hrows⟩ := applyHighlightRows_spec
      (captureDirectorHighlighting dir) ae.cols ae.dealIds 0 ae.bg ae.fc
    obtain ⟨_, hsome⟩ := hrows t dealId hid
    obtain ⟨_, e2⟩ := hsome hl hne hhl (by simpa using htb)
    have e2' : (applyHighlightRows (captureDirectorHighlighting dir) ae.cols
        ae.dealIds 0 (ae.bg, ae.fc)).2[t]?
        = some (adjustHighlighting hl.backgrounds hl.fontColors ae.cols).2 := by
      simpa using e2 (by simpa using htf)
    show (applyHighlightRows (captureDirectorHighlighting dir) ae.cols
        ae.dealIds 0 (ae.bg, ae.fc)).2[t]? = _
    rw [e2', adjustHighlighting_eq_of_agg hl.backgrounds hl.fontColors
      ae.cols hagg hlen]

/-- Claim C6, amended. The quick-sync highlighting adjustment is total: for
every captured color-array pair (equal lengths, as captured from one row
range) and every target column count — including drifts of ±2 — the
adjusted arrays come out exactly at the target length, so the re-apply step
never fails; the refresh-path restore has no such adjustment and fails on
drift (see the counterexample). -/
theorem adjustHighlighting_tolerates_drift (bg fc : List String) (cnt : Nat)
    (hlen : fc.length = bg.length) :
    (adjustHighlighting bg fc cnt).1.length = cnt ∧
    (adjustHighlighting bg fc cnt).2.length = cnt :=
  ⟨adjustHighlighting_fst_length bg fc cnt,
    adjustHighlighting_snd_length bg fc cnt hlen⟩

/-- Witness for `adjustHighlighting_tolerates_drift` at arrays two longer
and two shorter than the target count. -/
theorem adjustHighlighting_tolerates_drift_witness :
    ((List.replicate 18 "#ffff00").length = (List.replicate 18 "#ff0000").length ∧
      (adjustHighlighting (List.replicate 18 "#ff0000")
        (List.replicate 18 "#ffff00") 16).1.length = 16 ∧
      (adjustHighlighting (List.replicate 18 "#ff0000")
        (List.replicate 18 "#ffff00") 16).2.length = 16) ∧
    ((List.replicate 14 "#ffff00").length = (List.replicate 14 "#ff0000").length ∧
      (adjustHighlighting (List.replicate 14 "#ff0000")
        (List.replicate 14 "#ffff00") 16).1.length = 16 ∧
      (adjustHighlighting (List.replicate 14 "#ff0000")
        (List.replicate 14 "#ffff00") 16).2.length = 16) :=
  ⟨⟨by decide, adjustHighlighting_tolerates_drift (List.replicate 18 "#ff0000")
      (List.replicate 18 "#ffff00") 16 (by decide)⟩,
    ⟨by decide, adjustHighlighting_tolerates_drift (List.replicate 14 "#ff0000")
      (List.replicate 14 "#ffff00") 16 (by decide)⟩⟩

/-- Witness for `syncHighlightingToMyTeam_reindexes` at a one-row director
tab and a single 4-column AE sheet. -/
theorem syncHighlightingToMyTeam_reindexes_witness :
    ∃ ae', (syncHighlightingToMyTeam true
        { header := DirectorHub.consolidatedHeaders,
          data := [["d1", "Acme", "Alice"]],
          bg := [["#1", "#2", "#3", "#4", "#5"]],
          fc := [["#a", "#b", "#c", "#d", "#e"]] }
        [{ cols := 4, dealIds := ["d1"], bg := [["w", "w", "w", "w"]],
           fc := [["k", "k", "k", "k"]] }]).1[0]? = some ae' ∧
      ae'.cols = 4 ∧ ae'.dealIds = ["d1"] ∧
      ae'.bg[0]? = some (fitTo 4 "#ffffff"
        ((["#1", "#2", "#3", "#4", "#5"] : List String).eraseIdx 2)) ∧
      ae'.fc[0]? = some (fitTo 4 "#000000"
        ((["#a", "#b", "#c", "#d", "#e"] : List String).eraseIdx 2)) ∧
      jsIndexOf DirectorHub.consolidatedHeaders "Owner" = some 2 :=
  syncHighlightingToMyTeam_reindexes
    { header := DirectorHub.consolidatedHeaders,
      data := [["d1", "Acme", "Alice"]],
      bg := [["#1", "#2", "#3", "#4", "#5"]],
      fc := [["#a", "#b", "#c", "#d", "#e"]] }
    [{ cols := 4, dealIds := ["d1"], bg := [["w", "w", "w", "w"]],
       fc := [["k", "k", "k", "k"]] }]
    0 _ 0 "d1" { backgrounds := ["#1", "#2", "#3", "#4", "#5"],
                 fontColors := ["#a", "#b", "#c", "#d", "#e"] }
    rfl rfl (by decide) (by decide) (by decide) (by decide) (by decide)
    (by decide)

/-- Claim C10. With the lock held, the interactive pull-notes-up operation
collects only rows whose Deal ID and notes cell are both non-empty, and then
writes exactly one cell — column H — per director row whose Deal ID has a
collected note: the director tab keeps its row count, every cell outside
column H keeps its value, every row whose Deal ID is blank or has no
collected note is wholly unchanged, and a matched row's column-H cell
becomes the collected note. -/
theorem pullNotesFromMyTeam_frame (sheets : List Grid) (dir : Grid) :
    (pullNotesFromMyTeam true sheets dir).2 = Outcome.completed ∧
    (∀ (k v : String),
      aget? (collectTeamNotes sheets) k = some v → k ≠ "" ∧ v ≠ "") ∧
    (pullNotesFromMyTeam true sheets dir).1.length = dir.length ∧
    (∀ (j c' : Nat), c' ≠ DIRECTOR_NOTES_COLUMN - 1 →
      cellD ((pullNotesFromMyTeam true sheets dir).1.getD j []) c'
        = cellD (dir.getD j []) c') ∧
    (∀ (j : Nat) (row : List String), dir[j]? = some row →
      (cellD row 0 = "" ∨
        aget? (collectTeamNotes sheets) (cellD row 0) = none) →
      (pullNotesFromMyTeam true sheets dir).1[j]? = some row) ∧
    (∀ (j : Nat) (row : List String) (v : String), dir[j]? = some row →
      cellD row 0 ≠ "" →
      aget? (collectTeamNotes sheets) (cellD row 0) = some v →
      cellD ((pullNotesFromMyTeam true sheets dir).1.getD j [])
        (DIRECTOR_NOTES_COLUMN - 1) = v) := by
  have hbound : ∀ u ∈ collectUpdates (collectTeamNotes sheets) dir 0,
      u.1 < dir.length := by
    intro u hu
    obtain ⟨j, v⟩ := u
    obtain ⟨row, hrow, -, -⟩ :=
      (collectUpdates_mem_iff (collectTeamNotes sheets) dir 0 j v).mp
        (by simpa using hu)
    exact (List.getElem?_eq_some.mp hrow).1
  obtain ⟨hlen, hframe, hcol, heff⟩ :=
    foldSetCell_spec (DIRECTOR_NOTES_COLUMN - 1)
      (collectUpdates (collectTeamNotes sheets) dir 0) dir hbound
      (collectUpdates_pairwise (collectTeamNotes sheets) dir 0)
  have hfst : (pullNotesFromMyTeam true sheets dir).1
      = (collectUpdates (collectTeamNotes sheets) dir 0).foldl
          (fun g u => setCell g u.1 (DIRECTOR_NOTES_COLUMN - 1) u.2) dir := rfl
  refine ⟨rfl, collectTeamNotes_inv sheets, ?_, ?_, ?_, ?_⟩
  · rw [hfst]
    exact hlen
  · intro j c' hc
    rw [hfst]
    exact hcol j c' hc
  · intro j row hrow hor
    rw [hfst]
    have hnomem : ∀ v, (j, v) ∉ collectUpdates (collectTeamNotes sheets) dir 0 := by
      intro v hv
      obtain ⟨row', hrow', hne', hget'⟩ :=
        (collectUpdates_mem_iff (collectTeamNotes sheets) dir 0 j v).mp
          (by simpa using hv)
      rw [hrow] at hrow'
      cases hrow'
      rcases hor with hor | hor
      · exact hne' hor
      · rw [hor] at hget'
        cases hget'
    rw [hframe j hnomem]
    exact hrow
  · intro j row v hrow hne hget
    rw [hfst]
    have hmem : (j, v) ∈ collectUpdates (collectTeamNotes sheets) dir 0 := by
      have h := (collectUpdates_mem_iff (collectTeamNotes sheets) dir 0 j v).mpr
        ⟨row, hrow, hne, hget⟩
      simpa using h
    exact heff j v hmem

/-- A one-AE-sheet team for the C10 witness: deal D1 carries a note, deal D2
has an empty notes cell. -/
def w10Sheets : List Grid :=
  [[["D1", "a", "b", "c", "d", "e", "note1", ""],
    ["D2", "f", "g", "h", "i", "j", "", ""]]]

/-- A two-row director tab for the C10 witness. -/
def w10Dir : Grid :=
  [["D1", "x", "own", "p", "q", "r", "s", "old"],
   ["D2", "y", "own", "p", "q", "r", "s", "keep"]]

/-- Witness for `pullNotesFromMyTeam_frame`: on the concrete team, row 0
(matched Deal ID `D1`) gets `note1` into column H while its Deal Name cell
survives, and row 1 (no collected note for `D2`) is wholly unchanged. -/
theorem pullNotesFromMyTeam_frame_witness :
    cellD ((pullNotesFromMyTeam true w10Sheets w10Dir).1.getD 0 [])
      (DIRECTOR_NOTES_COLUMN - 1) = "note1" ∧
    cellD ((pullNotesFromMyTeam true w10Sheets w10Dir).1.getD 0 []) 1
      = "x" ∧
    (pullNotesFromMyTeam true w10Sheets w10Dir).1[1]?
      = some ["D2", "y", "own", "p", "q", "r", "s", "keep"] := by
  obtain ⟨-, -, -, hcol, hrow, heff⟩ := pullNotesFromMyTeam_frame w10Sheets w10Dir
  refine ⟨heff 0 ["D1", "x", "own", "p", "q", "r", "s", "old"] "note1"
      rfl (by decide) (by decide), ?_, ?_⟩
  · rw [hcol 0 1 (by decide)]
    decide
  · exact hrow 1 ["D2", "y", "own", "p", "q", "r", "s", "keep"] rfl
      (Or.inr (by decide))

/-- A director tab whose single deal `id1` is displayed as `Acme`. -/
def c3Sheet1 : DSheet :=
  { header := ["Deal ID", "Deal Name", "Director Priority", "Director Note"],
    data := [["id1", "Acme", "HIGH", "call"]],
    bg := [["r", "r", "r", "r"]],
    fc := [["k", "k", "k", "k"]] }

/-- The same tab after the deal's display name changed to `Acme Corp`:
identical Deal ID, colors, priority, and note. -/
def c3Sheet2 : DSheet :=
  { header := ["Deal ID", "Deal Name", "Director Priority", "Director Note"],
    data := [["id1", "Acme Corp", "HIGH", "call"]],
    bg := [["r", "r", "r", "r"]],
    fc := [["k", "k", "k", "k"]] }

/-- The refreshed tab the directives are restored onto: deal `id1` now
fetched under its new display name. -/
def c3Target : DSheet :=
  { header := ["Deal ID", "Deal Name", "Director Priority", "Director Note"],
    data := [["id1", "Acme Corp", "", ""]],
    bg := [["w", "w", "w", "w"]],
    fc := [["k", "k", "k", "k"]] }

/-- Claim C3, counterexample. Two director tabs that differ only in one
deal's display name — same Deal ID, priority, note, and colors — restore
differently: the directive captured under the old name misses the refreshed
row, the one captured under the new name updates it, so
`captureDirectorDirectives`/`restoreDirectorDirectives` key by display name,
not by Record ID. -/
theorem directorDirectives_name_keyed_counterexample :
    c3Sheet1.header = c3Sheet2.header ∧
    c3Sheet1.bg = c3Sheet2.bg ∧ c3Sheet1.fc = c3Sheet2.fc ∧
    cellD (c3Sheet1.data.getD 0 []) 0 = cellD (c3Sheet2.data.getD 0 []) 0 ∧
    cellD (c3Sheet1.data.getD 0 []) 2 = cellD (c3Sheet2.data.getD 0 []) 2 ∧
    cellD (c3Sheet1.data.getD 0 []) 3 = cellD (c3Sheet2.data.getD 0 []) 3 ∧
    cellD (c3Sheet1.data.getD 0 []) 1 ≠ cellD (c3Sheet2.data.getD 0 []) 1 ∧
    restoreDirectorDirectives c3Target (captureDirectorDirectives c3Sheet1)
      ≠ restoreDirectorDirectives c3Target
          (captureDirectorDirectives c3Sheet2) := by
  decide

/-- `collectUpdates` reads only column A of each director row: grids with
equal Deal ID columns produce the same update list. -/
theorem collectUpdates_col0 (m : AList String) :
    ∀ rows1 rows2 : Grid,
      rows1.map (fun row => cellD row 0) = rows2.map (fun row => cellD row 0) →
      ∀ i : Nat, collectUpdates m rows1 i = collectUpdates m rows2 i := by
  intro rows1
  induction rows1 with
  | nil =>
    intro rows2 h i
    cases rows2 with
    | nil => rfl
    | cons r rs => simp at h
  | cons r1 rest1 ih =>
    intro rows2 h i
    cases rows2 with
    | nil => simp at h
    | cons r2 rest2 =>
      simp only [List.map_cons, List.cons.injEq] at h
      obtain ⟨h0, hrest⟩ := h
      rw [collectUpdates, collectUpdates, h0, ih rest2 hrest (i + 1)]

/-- Claim C3, amended. The ID-keyed paths really are display-name-blind:
`captureDirectorHighlighting` and the note-update collection depend only on
the Deal ID column (and the color grids), so stores differing only in
display names are treated identically there — whereas the director-directive
path (`captureDirectorDirectives` / `restoreDirectorDirectives` /
`syncDirectorFlagsToAESheets`) keys by Deal Name (see the
counterexample). -/
theorem idKeyed_ops_display_name_invariant (s1 s2 : DSheet) (m : AList String)
    (i : Nat)
    (hid : s1.data.map (fun row => cellD row 0)
      = s2.data.map (fun row => cellD row 0))
    (hbg : s1.bg = s2.bg) (hfc : s1.fc = s2.fc) :
    captureDirectorHighlighting s1 = captureDirectorHighlighting s2 ∧
    collectUpdates m s1.data i = collectUpdates m s2.data i := by
  constructor
  · unfold captureDirectorHighlighting
    rw [hid, hbg, hfc]
  · exact collectUpdates_col0 m s1.data s2.data hid i

/-- Witness for `idKeyed_ops_display_name_invariant` at the two concrete
tabs that differ only in a display name. -/
theorem idKeyed_ops_display_name_invariant_witness :
    (c3Sheet1.data.map (fun row => cellD row 0)
      = c3Sheet2.data.map (fun row => cellD row 0)) ∧
    captureDirectorHighlighting c3Sheet1 = captureDirectorHighlighting c3Sheet2 ∧
    collectUpdates [("id1", "note")] c3Sheet1.data 0
      = collectUpdates [("id1", "note")] c3Sheet2.data 0 :=
  ⟨by decide, idKeyed_ops_display_name_invariant c3Sheet1 c3Sheet2
    [("id1", "note")] 0 (by decide) rfl rfl⟩

end QuickSync

/-! Main.js — the full-cycle orchestrator `generateAllDashboards()`. -/

namespace MainJs

open JsModel DirectorHub QuickSync

/-- The result object each orchestration step returns
(`{ success, ... }` / `{ success: false, error }`). -/
structure StepResult where
  success : Bool
  error : String
deriving DecidableEq

/-- One entry of the cycle's observable record, in log order: the per-owner
`SUCCESS`/`ERROR` line, the step-3 director-pipelines result line, the
step-4 highlighting-sync result line, and the final summary toast. -/
inductive Event where
  | ownerProcessed (name : String) (ok : Bool)
  | directorPipelines (r : StepResult)
  | highlightSync (r : StepResult)
  | summary (processed errors : Nat)
deriving DecidableEq

/-- The orchestrator's environment over an abstract store state `S`: the
configured salespeople, the per-owner dashboard update (whose exceptions the
per-owner `try/catch` swallows), the step-3 rebuild of every director
consolidated pipeline (`updateAllDirectorConsolidatedPipelines`, which
catches its own errors and returns a result object), and the step-4
highlighting sync. Modelled from the spec: `syncDirectorHighlightingToAESheets`,
called at Main.js step 4, is defined nowhere in the sources, so
`highlightStep` stands for it abstractly — a store transformer returning a
result object, exactly like the step-3 function that does exist. -/
structure CycleEnv (S : Type) where
  salespeople : List String
  ownerStep : String → S → Except String S
  directorStep : S → S × StepResult
  highlightStep : S → S × StepResult

/-- The `salespeople.forEach` body: on success log the owner's success and
bump `processedCount`; on a thrown error log it and bump `errorCount`; the
batch continues either way. -/
def ownerFold {S : Type} (env : CycleEnv S)
    (acc : S × List Event × Nat × Nat) (p : String) :
    S × List Event × Nat × Nat :=
  match env.ownerStep p acc.1 with
  | Except.ok s' =>
    (s', acc.2.1 ++ [Event.ownerProcessed p true], acc.2.2.1 + 1, acc.2.2.2)
  | Except.error _ =>
    (acc.1, acc.2.1 ++ [Event.ownerProcessed p false], acc.2.2.1,
      acc.2.2.2 + 1)

/-- `generateAllDashboards()`: bounded-wait lock, busy → toast and return
before touching any store; otherwise process every owner, then rebuild the
director pipelines on the resulting state (step 3), then sync director
highlighting on the state after that (step 4), recording each step's result,
and finish with the summary toast. -/
def generateAllDashboards {S : Type} (lockAcquired : Bool) (env : CycleEnv S)
    (s : S) : S × List Event × Outcome :=
  if !lockAcquired then (s, [], Outcome.busy)
  else
    ((env.highlightStep (env.directorStep
        (env.salespeople.foldl (ownerFold env) (s, [], 0, 0)).1).1).1,
     (env.salespeople.foldl (ownerFold env) (s, [], 0, 0)).2.1
       ++ [Event.directorPipelines
             (env.directorStep
               (env.salespeople.foldl (ownerFold env) (s, [], 0, 0)).1).2,
           Event.highlightSync
             (env.highlightStep (env.directorStep
               (env.salespeople.foldl (ownerFold env) (s, [], 0, 0)).1).1).2,
           Event.summary
             (env.salespeople.foldl (ownerFold env) (s, [], 0, 0)).2.2.1
             (env.salespeople.foldl (ownerFold env) (s, [], 0, 0)).2.2.2],
     Outcome.completed)

/-- The owner loop emits exactly one `ownerProcessed` event per configured
salesperson, in order, and its success and error counters add up to the
owner count — no failure aborts the batch. -/
theorem ownerFold_spec {S : Type} (env : CycleEnv S) :
    ∀ (ps : List String) (s : S) (evs : List Event) (pc ec : Nat),
      ∃ (s1 : S) (evs1 : List Event) (pc1 ec1 : Nat),
        ps.foldl (ownerFold env) (s, evs, pc, ec)
          = (s1, evs ++ evs1, pc + pc1, ec + ec1) ∧
        evs1.length = ps.length ∧
        (∀ (k : Nat) (name : String), ps[k]? = some name →
          ∃ ok : Bool, evs1[k]? = some (Event.ownerProcessed name ok)) ∧
        pc1 + ec1 = ps.length := by
  intro ps
  induction ps with
  | nil =>
    intro s evs pc ec
    exact ⟨s, [], 0, 0, by simp, rfl, fun k name h => by simp at h, rfl⟩
  | cons p rest ih =>
    intro s evs pc ec
    rw [List.foldl_cons]
    cases hstep : env.ownerStep p s with
    | ok s' =>
      obtain ⟨s1, evs1, pc1, ec1, heq, hlen, hk, hsum⟩ :=
        ih s' (evs ++ [Event.ownerProcessed p true]) (pc + 1) ec
      refine ⟨s1, Event.ownerProcessed p true :: evs1, pc1 + 1, ec1,
        ?_, ?_, ?_, ?_⟩
      · rw [show ownerFold env (s, evs, pc, ec) p
            = (s', evs ++ [Event.ownerProcessed p true], pc + 1, ec) from by
            simp [ownerFold, hstep]]
        rw [heq, List.append_assoc, List.singleton_append,
          show pc + 1 + pc1 = pc + (pc1 + 1) from by omega]
      · simp [hlen]
      · intro k name h
        cases k with
        | zero =>
          simp only [List.getElem?_cons_zero, Option.some.injEq] at h
          subst h
          exact ⟨true, by simp⟩
        | succ k =>
          simp only [List.getElem?_cons_succ] at h ⊢
          exact hk k name h
      · simp at hsum ⊢
        omega
    | error e =>
      obtain ⟨s1, evs1, pc1, ec1, heq, hlen, hk, hsum⟩ :=
        ih s (evs ++ [Event.ownerProcessed p false]) pc (ec + 1)
      refine ⟨s1, Event.ownerProcessed p false :: evs1, pc1, ec1 + 1,
        ?_, ?_, ?_, ?_⟩
      · rw [show ownerFold env (s, evs, pc, ec) p
            = (s, evs ++ [Event.ownerProcessed p false], pc, ec + 1) from by
            simp [ownerFold, hstep]]
        rw [heq, List.append_assoc, List.singleton_append,
          show ec + 1 + ec1 = ec + (ec1 + 1) from by omega]
      · simp [hlen]
      · intro k name h
        cases k with
        | zero =>
          simp only [List.getElem?_cons_zero, Option.some.injEq] at h
          subst h
          exact ⟨false, by simp⟩
        | succ k =>
          simp only [List.getElem?_cons_succ] at h ⊢
          exact hk k name h
      · simp at hsum ⊢
        omega

/-- Claim C4. With the lock held, a full cycle completes with this exact
record: one success-or-failure event per configured owner, in order, then —
on the state left by the owner updates — the director consolidated-pipelines
rebuild with its result, then — on the state after that — the
director-highlighting sync with its result, then the summary, whose success
and error counts add up to the owner count; no per-owner or step failure
aborts the cycle. -/
theorem generateAllDashboards_orchestration (S : Type) (env : CycleEnv S)
    (s : S) :
    ∃ (s1 : S) (ownerEvs : List Event) (processed errors : Nat),
      (generateAllDashboards true env s).2.2 = Outcome.completed ∧
      (generateAllDashboards true env s).2.1
        = ownerEvs
          ++ [Event.directorPipelines (env.directorStep s1).2,
              Event.highlightSync
                (env.highlightStep (env.directorStep s1).1).2,
              Event.summary processed errors] ∧
      (generateAllDashboards true env s).1
        = (env.highlightStep (env.directorStep s1).1).1 ∧
      ownerEvs.length = env.salespeople.length ∧
      (∀ (k : Nat) (name : String), env.salespeople[k]? = some name →
        ∃ ok : Bool, ownerEvs[k]? = some (Event.ownerProcessed name ok)) ∧
      processed + errors = env.salespeople.length := by
  obtain ⟨s1, evs1, pc1, ec1, heq, hlen, hk, hsum⟩ :=
    ownerFold_spec env env.salespeople s [] 0 0
  have hr : env.salespeople.foldl (ownerFold env) (s, [], 0, 0)
      = (s1, evs1, pc1, ec1) := by
    rw [heq]
    simp
  refine ⟨s1, evs1, pc1, ec1, rfl, ?_, ?_, hlen, hk, hsum⟩
  · show ((env.salespeople.foldl (ownerFold env) (s, [], 0, 0)).2.1 ++ _ : List Event) = _
    rw [hr]
  · show (env.highlightStep (env.directorStep
        (env.salespeople.foldl (ownerFold env) (s, [], 0, 0)).1).1).1 = _
    rw [hr]

/-- A concrete two-owner environment over `Nat` stores in which the second
owner's update throws and the director step reports failure. -/
def w4Env : CycleEnv Nat :=
  { salespeople := ["Alice", "Bob"],
    ownerStep := fun p s =>
      if p = "Bob" then Except.error "boom" else Except.ok (s + 1),
    directorStep := fun s => (s + 10, { success := false, error := "d" }),
    highlightStep := fun s => (s + 100, { success := true, error := "" }) }

/-- Witness for `generateAllDashboards_orchestration` at the concrete
environment `w4Env`. -/
theorem generateAllDashboards_orchestration_witness :
    ∃ (s1 : Nat) (ownerEvs : List Event) (processed errors : Nat),
      (generateAllDashboards true w4Env 0).2.2 = Outcome.completed ∧
      (generateAllDashboards true w4Env 0).2.1
        = ownerEvs
          ++ [Event.directorPipelines (w4Env.directorStep s1).2,
              Event.highlightSync
                (w4Env.highlightStep (w4Env.directorStep s1).1).2,
              Event.summary processed errors] ∧
      (generateAllDashboards true w4Env 0).1
        = (w4Env.highlightStep (w4Env.directorStep s1).1).1 ∧
      ownerEvs.length = w4Env.salespeople.length ∧
      (∀ (k : Nat) (name : String), w4Env.salespeople[k]? = some name →
        ∃ ok : Bool, ownerEvs[k]? = some (Event.ownerProcessed name ok)) ∧
      processed + errors = w4Env.salespeople.length :=
  generateAllDashboards_orchestration Nat w4Env 0

/-- Claim C9. When the bounded-wait lock is not acquired, every mutating
operation returns normally with the distinguishable busy outcome and
leaves every store untouched: the full cycle returns its store unchanged
with an empty event record before any step runs, and the interactive
pull-notes, push-notes, and highlighting-sync operations return their
sheets unchanged; busy is distinct from completion and from every
execution failure. -/
theorem lock_busy_no_writes (S : Type) (env : CycleEnv S) (s : S)
    (sheets : List DirectorHub.Grid) (dir mySheet : DirectorHub.Grid)
    (d : DSheet) (aes : List AESheet) :
    generateAllDashboards false env s = (s, [], Outcome.busy) ∧
    pullNotesFromMyTeam false sheets dir = (dir, Outcome.busy) ∧
    pushMyNotesToDirector false mySheet dir = (dir, Outcome.busy) ∧
    syncHighlightingToMyTeam false d aes = (aes, Outcome.busy) ∧
    Outcome.busy ≠ Outcome.completed ∧
    ∀ msg : String, Outcome.busy ≠ Outcome.failed msg :=
  ⟨rfl, rfl, rfl, rfl, fun h => Outcome.noConfusion h,
    fun _ h => Outcome.noConfusion h⟩

/-- Witness for `lock_busy_no_writes` at a concrete environment, director
tab, and team. -/
theorem lock_busy_no_writes_witness :
    generateAllDashboards false w4Env 7 = (7, [], Outcome.busy) ∧
    pullNotesFromMyTeam false w10Sheets w10Dir = (w10Dir, Outcome.busy) ∧
    pushMyNotesToDirector false (w10Sheets.getD 0 []) w10Dir
      = (w10Dir, Outcome.busy) ∧
    syncHighlightingToMyTeam false c3Target [] = ([], Outcome.busy) ∧
    Outcome.busy ≠ Outcome.completed ∧
    ∀ msg : String, Outcome.busy ≠ Outcome.failed msg :=
  lock_busy_no_writes Nat w4Env 7 w10Sheets w10Dir (w10Sheets.getD 0 [])
    c3Target []

end MainJs
